import Mathlib

/-!
Verification of the OLO metrics compute pipeline (`src/utils/computeEngine.ts`)
and spend reallocation recommender (`src/utils/spendPlan.ts`).

Modelling conventions, chosen to mirror the TypeScript source:

* JavaScript numbers are modelled as exact rationals (`ℚ`).  Dates are ISO
  strings in the source and are compared either lexicographically (strings of
  the normalized `toISOString` format, where lexicographic and chronological
  order agree) or via `new Date(s).getTime()`; we model a date by its epoch
  timestamp in milliseconds, as a rational.
* JavaScript `Map`s preserve insertion order; `set` of an existing key updates
  the entry in place.  We model a `Map` as an association list with the same
  semantics (`mapGet`, `mapSet`, `mapHas`).
* JavaScript truthiness is embedded explicitly: a `number` guard such as
  `if (churnTs && ...)` is false when the value is `undefined` *or* `0`, so the
  model tests `≠ 0` wherever the source relies on truthiness of a number.
* `Array.prototype.sort` with a consistent comparator is a stable sort
  (ES2019); `List.mergeSort` is also stable, and a stable sort's output is
  uniquely determined by the (total, transitive) `le` relation together with
  the input order, so the two agree.  The comparator `cmp a b ≤ 0` is
  translated into the corresponding boolean `le`.
* Effects: the Dexie job/audit/metrics tables touched by `runComputePipeline`
  are collected in a `DbState` record, and the pipeline becomes a pure state
  transformer.  The `db.transaction(...)` block that clears and rewrites the
  three derived tables is atomic in Dexie (it rolls back wholesale on error),
  so it is modelled as a single simultaneous record update.  An *unexpected
  exception during aggregation* is modelled by an `Option String` parameter:
  `some msg` makes the computation throw (with message `msg`) right after the
  "computing customer metrics" progress note, i.e. inside the aggregation
  phase and before any write to a derived table; the thrown error propagates
  to the caller as `Except.error msg`, exactly as the rejected promise
  propagates to `compute.worker.ts`, whose `catch` posts an error response.
* Display-only metadata (`computedAt`, `modelVersion`, `startedAt`,
  `updatedAt`) and the exact wording of rationale strings are irrelevant to
  every claim and are omitted from the records (rationales are kept as
  strings, with simplified text).
-/

namespace OLO

/-! ## JavaScript `Map` as an insertion-ordered association list -/

def mapGet {K V : Type} [DecidableEq K] : List (K × V) → K → Option V
  | [], _ => none
  | p :: rest, k => if p.1 = k then some p.2 else mapGet rest k

def mapSet {K V : Type} [DecidableEq K] : List (K × V) → K → V → List (K × V)
  | [], k, v => [(k, v)]
  | p :: rest, k, v => if p.1 = k then (k, v) :: rest else p :: mapSet rest k v

def mapHas {K V : Type} [DecidableEq K] (m : List (K × V)) (k : K) : Bool :=
  (mapGet m k).isSome

/-! ## Data model (`src/db/types.ts`) -/

structure CustomerRecord where
  customerId : String
  acquisitionDate : Option ℚ
  channelSourceId : Option String
deriving DecidableEq, Repr

structure TransactionRecord where
  transactionId : String
  customerId : String
  revenueAmount : ℚ
  date : ℚ
deriving DecidableEq, Repr

structure ChannelRecord where
  channelId : String
  budgetSpend : Option ℚ
deriving DecidableEq, Repr

structure EventRecord where
  eventId : String
  customerId : String
  type : String
  date : ℚ
deriving DecidableEq, Repr

structure AcquiredViaRecord where
  customerId : String
  channelId : String
deriving DecidableEq, Repr

structure ChannelSpendDailyRecord where
  channelId : String
  date : ℚ
  spend : ℚ
deriving DecidableEq, Repr

inductive AttributionMode where
  | channel_field
  | acquired_via
deriving DecidableEq, Repr

inductive CacSpendSource where
  | daily
  | channel_total
deriving DecidableEq, Repr

structure ModelConfigRecord where
  ltvWindowDays : Option ℚ
  churnEventTypes : List String
  segmentHighQuantile : ℚ
  segmentMidQuantile : ℚ
  attributionMode : AttributionMode
  cacSpendSource : CacSpendSource
  cacLookbackDays : Option ℚ
deriving DecidableEq, Repr

/-- `defaultModelConfig` from `src/db/projectDb.ts` (the fields the compute
engine reads). -/
def defaultModelConfig : ModelConfigRecord :=
  { ltvWindowDays := none
    churnEventTypes := []
    segmentHighQuantile := 9/10
    segmentMidQuantile := 7/10
    attributionMode := .channel_field
    cacSpendSource := .daily
    cacLookbackDays := none }

inductive SegmentKey where
  | HIGH
  | MID
  | LOW
deriving DecidableEq, Repr

structure CustomerMetricsRecord where
  customerId : String
  ltv : ℚ
  txnCount : ℕ
  firstPurchaseDate : Option ℚ
  lastPurchaseDate : Option ℚ
  ltvSegment : SegmentKey
deriving DecidableEq, Repr

structure SegmentMetricsRecord where
  segmentKey : SegmentKey
  customerCount : ℕ
  avgLtv : ℚ
  totalRevenue : ℚ
  highChannelCount : ℕ
deriving DecidableEq, Repr

structure ChannelMetricsRecord where
  channelId : String
  cac : ℚ
  spend : ℚ
  acquiredCustomers : ℕ
  highLtvCustomers : ℕ
  highLtvShare : ℚ
  netValue : ℚ
  avgLtv : ℚ
deriving DecidableEq, Repr

/-! ## Compute engine (`src/utils/computeEngine.ts`) -/

/-- Milliseconds in a day, as in `24 * 60 * 60 * 1000`. -/
def dayMs : ℚ := 24 * 60 * 60 * 1000

/-- One step of the `events.forEach` loop in `buildChurnMap`. -/
def churnStep (config : ModelConfigRecord) (churnDates : List (String × ℚ))
    (event : EventRecord) : List (String × ℚ) :=
  if event.type ∈ config.churnEventTypes then
    match mapGet churnDates event.customerId with
    | none => mapSet churnDates event.customerId event.date
    | some current =>
        if current = 0 ∨ event.date < current then
          mapSet churnDates event.customerId event.date
        else churnDates
  else churnDates

/-- `buildChurnMap` (computeEngine.ts, lines 107-118).  For each event whose
type is in `config.churnEventTypes`, record its timestamp, replacing the
current entry when `!current || ts < current` — note that `!current` is also
true for a stored timestamp of `0`. -/
def buildChurnMap (events : List EventRecord) (config : ModelConfigRecord) :
    List (String × ℚ) :=
  events.foldl (churnStep config) []

structure CustomerAggregate where
  ltv : ℚ
  txnCount : ℕ
  first : Option ℚ
  last : Option ℚ
deriving DecidableEq, Repr

/-- `const ts = customer.acquisitionDate ? new Date(...).getTime() : undefined;
if (ts) acquisitionLookup.set(...)` — a timestamp of `0` is falsy and is not
stored. -/
def acquisitionLookup (customers : List CustomerRecord) : List (String × ℚ) :=
  customers.foldl
    (fun m c =>
      match c.acquisitionDate with
      | some ts => if ts ≠ 0 then mapSet m c.customerId ts else m
      | none => m)
    []

/-- `windowMs = config.ltvWindowDays ? config.ltvWindowDays * 24*60*60*1000
: null` — a configured window of `0` days is falsy and yields `null`. -/
def windowMs (config : ModelConfigRecord) : Option ℚ :=
  match config.ltvWindowDays with
  | some d => if d ≠ 0 then some (d * dayMs) else none
  | none => none

/-- The two rejection tests in the transaction loop of `computeCustomerTotals`
(lines 144-148): `if (churnTs && txnTs > churnTs) return` and
`if (windowMs && acquisitionTs && txnTs > acquisitionTs + windowMs) return`.
`txnIncluded` is true when neither test rejects the transaction. -/
def txnIncluded (churnDates acqLookup : List (String × ℚ)) (w : Option ℚ)
    (txn : TransactionRecord) : Bool :=
  (match mapGet churnDates txn.customerId with
    | some churnTs => !decide (churnTs ≠ 0 ∧ txn.date > churnTs)
    | none => true) &&
  (match w, mapGet acqLookup txn.customerId with
    | some wv, some acqTs => !decide (wv ≠ 0 ∧ acqTs ≠ 0 ∧ txn.date > acqTs + wv)
    | _, _ => true)

/-- One step of the transaction fold in `computeCustomerTotals`
(lines 143-156). -/
def totalsStep (churnDates acqLookup : List (String × ℚ)) (w : Option ℚ)
    (totals : List (String × CustomerAggregate)) (txn : TransactionRecord) :
    List (String × CustomerAggregate) :=
  if txnIncluded churnDates acqLookup w txn then
    let entry := (mapGet totals txn.customerId).getD ⟨0, 0, none, none⟩
    let first :=
      match entry.first with
      | none => some txn.date
      | some f => if txn.date < f then some txn.date else some f
    let last :=
      match entry.last with
      | none => some txn.date
      | some l => if txn.date > l then some txn.date else some l
    mapSet totals txn.customerId
      ⟨entry.ltv + txn.revenueAmount, entry.txnCount + 1, first, last⟩
  else totals

/-- The initial totals map: every customer present gets a zero entry. -/
def initialTotals (customers : List CustomerRecord) :
    List (String × CustomerAggregate) :=
  customers.foldl (fun m c => mapSet m c.customerId ⟨0, 0, none, none⟩) []

/-- `computeCustomerTotals` (computeEngine.ts, lines 127-159). -/
def computeCustomerTotals (customers : List CustomerRecord)
    (transactions : List TransactionRecord) (churnDates : List (String × ℚ))
    (config : ModelConfigRecord) : List (String × CustomerAggregate) :=
  transactions.foldl (totalsStep churnDates (acquisitionLookup customers) (windowMs config))
    (initialTotals customers)

/-- JavaScript array indexing `ltvs[i]` for an arbitrary (possibly negative)
integer index; out-of-range gives `undefined`. -/
def jsIndex (l : List ℚ) (i : ℤ) : Option ℚ :=
  if 0 ≤ i then l[i.toNat]? else none

/-- The threshold index `Math.floor(Math.max(ltvs.length - 1, 0) * q)`. -/
def thresholdIdx (n : ℕ) (q : ℚ) : ℤ :=
  ⌊max ((n : ℚ) - 1) 0 * q⌋

/-- The sorted-ascending list of LTV values (`.sort((a, b) => a - b)`). -/
def sortedLtvs (totals : List (String × CustomerAggregate)) : List ℚ :=
  (totals.map (fun p => p.2.ltv)).mergeSort (fun a b => a ≤ b)

/-- `const highThreshold = ltvs[highIdx] ?? 0`. -/
def highThreshold (totals : List (String × CustomerAggregate))
    (config : ModelConfigRecord) : ℚ :=
  (jsIndex (sortedLtvs totals)
    (thresholdIdx (sortedLtvs totals).length config.segmentHighQuantile)).getD 0

/-- `const midThreshold = ltvs[midIdx] ?? 0`. -/
def midThreshold (totals : List (String × CustomerAggregate))
    (config : ModelConfigRecord) : ℚ :=
  (jsIndex (sortedLtvs totals)
    (thresholdIdx (sortedLtvs totals).length config.segmentMidQuantile)).getD 0

/-- The per-customer branch of the `totals.forEach` loop in
`assignSegments`. -/
def segmentRule (totals : List (String × CustomerAggregate))
    (config : ModelConfigRecord) (ltv : ℚ) : SegmentKey :=
  if (sortedLtvs totals).length = 0 then .LOW
  else if ltv ≥ highThreshold totals config then .HIGH
  else if ltv ≥ midThreshold totals config then .MID
  else .LOW

/-- `assignSegments` (computeEngine.ts, lines 161-185). -/
def assignSegments (totals : List (String × CustomerAggregate))
    (config : ModelConfigRecord) : List (String × SegmentKey) :=
  totals.foldl
    (fun segments p => mapSet segments p.1 (segmentRule totals config p.2.ltv))
    []

/-- `buildCustomerMetrics` (computeEngine.ts, lines 187-202). -/
def buildCustomerMetrics (totals : List (String × CustomerAggregate))
    (segments : List (String × SegmentKey)) : List CustomerMetricsRecord :=
  totals.map (fun p =>
    { customerId := p.1
      ltv := p.2.ltv
      txnCount := p.2.txnCount
      firstPurchaseDate := p.2.first
      lastPurchaseDate := p.2.last
      ltvSegment := (mapGet segments p.1).getD .LOW })

/-- `summarizeSegments` (computeEngine.ts, lines 204-226).  Note that the
result always has one row per segment key, zero-count rows included. -/
def summarizeSegments (customerMetrics : List CustomerMetricsRecord) :
    List SegmentMetricsRecord :=
  let m :=
    customerMetrics.foldl
      (fun m metric =>
        let entry := (mapGet m metric.ltvSegment).getD (0, 0)
        mapSet m metric.ltvSegment (entry.1 + 1, entry.2 + metric.ltv))
      ([] : List (SegmentKey × (ℕ × ℚ)))
  [SegmentKey.HIGH, SegmentKey.MID, SegmentKey.LOW].map (fun key =>
    let entry := (mapGet m key).getD (0, 0)
    { segmentKey := key
      customerCount := entry.1
      avgLtv := if entry.1 ≠ 0 then entry.2 / (entry.1 : ℚ) else 0
      totalRevenue := entry.2
      highChannelCount := 0 })

/-- One step of the `acquiredVia.forEach` loop. -/
def firstEdgeStep (m : List (String × String)) (edge : AcquiredViaRecord) :
    List (String × String) :=
  if mapHas m edge.customerId then m
  else mapSet m edge.customerId edge.channelId

/-- The `acquiredVia.forEach` loop: first edge seen per customer wins. -/
def firstEdgeMap (acquiredVia : List AcquiredViaRecord) :
    List (String × String) :=
  acquiredVia.foldl firstEdgeStep []

/-- The `customers.forEach` loop of the `channel_field` branch:
`if (customer.channelSourceId) customerChannel.set(...)`. -/
def channelFieldMap (customers : List CustomerRecord) :
    List (String × String) :=
  customers.foldl
    (fun m c =>
      match c.channelSourceId with
      | some src => mapSet m c.customerId src
      | none => m)
    []

/-- The `customerChannel` map of `computeChannelMetrics`
(computeEngine.ts, lines 236-257): `acquired_via` with at least one edge uses
the edges; otherwise `channelSourceId` is used, falling back to the edge map
as a whole when the field-derived map is empty and edges exist. -/
def attributionMap (config : ModelConfigRecord)
    (customers : List CustomerRecord) (acquiredVia : List AcquiredViaRecord) :
    List (String × String) :=
  if config.attributionMode = .acquired_via ∧ acquiredVia ≠ [] then
    firstEdgeMap acquiredVia
  else
    let m := channelFieldMap customers
    if m = [] ∧ acquiredVia ≠ [] then firstEdgeMap acquiredVia else m

/-- The `spendByChannel` map of `computeChannelMetrics`
(computeEngine.ts, lines 259-281).  `now` stands for `Date.now()`.
The cutoff `config.cacLookbackDays ? now - lookback*dayMs : null` is falsy for
a lookback of `0`, and the guard `if (cutoff && ts < cutoff)` is skipped when
the cutoff value itself is `0`. -/
def spendCutoff (config : ModelConfigRecord) (now : ℚ) : Option ℚ :=
  match config.cacLookbackDays with
  | some d => if d ≠ 0 then some (now - d * dayMs) else none
  | none => none

/-- `if (cutoff && ts < cutoff) return` — the row is skipped. -/
def spendRowExcluded (cutoff : Option ℚ) (row : ChannelSpendDailyRecord) :
    Bool :=
  match cutoff with
  | some c => decide (c ≠ 0 ∧ row.date < c)
  | none => false

/-- One step of the `spendDaily.forEach` accumulation loop. -/
def dailySpendStep (cutoff : Option ℚ) (m : List (String × ℚ))
    (row : ChannelSpendDailyRecord) : List (String × ℚ) :=
  if spendRowExcluded cutoff row then m
  else mapSet m row.channelId ((mapGet m row.channelId).getD 0 + row.spend)

/-- The `channel.budgetSpend !== undefined` loop of the `channel_total`
branch. -/
def budgetSpendMap (channels : List ChannelRecord) : List (String × ℚ) :=
  channels.foldl
    (fun m ch =>
      match ch.budgetSpend with
      | some b => mapSet m ch.channelId b
      | none => m)
    []

/-- The final `channels.forEach`: give every channel a spend entry, `0` when
missing. -/
def ensureChannelStep (m : List (String × ℚ)) (ch : ChannelRecord) :
    List (String × ℚ) :=
  if mapHas m ch.channelId then m else mapSet m ch.channelId 0

def resolveSpend (config : ModelConfigRecord) (channels : List ChannelRecord)
    (spendDaily : List ChannelSpendDailyRecord) (now : ℚ) :
    List (String × ℚ) :=
  let base :=
    if config.cacSpendSource = .daily ∧ spendDaily ≠ [] then
      spendDaily.foldl (dailySpendStep (spendCutoff config now)) []
    else budgetSpendMap channels
  channels.foldl ensureChannelStep base

structure ChannelAgg where
  customers : ℕ
  high : ℕ
  totalLtv : ℚ
deriving DecidableEq, Repr

/-- One step of the `customerMetrics.forEach` aggregation loop. -/
def channelAggStep (attrib : List (String × String))
    (m : List (String × ChannelAgg)) (metric : CustomerMetricsRecord) :
    List (String × ChannelAgg) :=
  match mapGet attrib metric.customerId with
  | none => m
  | some channelId =>
    let e := (mapGet m channelId).getD ⟨0, 0, 0⟩
    mapSet m channelId
      ⟨e.customers + 1,
       (if metric.ltvSegment = .HIGH then e.high + 1 else e.high),
       e.totalLtv + metric.ltv⟩

/-- The `aggregates` map of `computeChannelMetrics`
(computeEngine.ts, lines 283-292). -/
def channelAggregates (customerMetrics : List CustomerMetricsRecord)
    (attrib : List (String × String)) : List (String × ChannelAgg) :=
  customerMetrics.foldl (channelAggStep attrib) []

/-- The final row construction of `computeChannelMetrics`
(computeEngine.ts, lines 294-311). -/
def channelMetricsRow (spendBy : List (String × ℚ))
    (p : String × ChannelAgg) : ChannelMetricsRecord :=
  let spend := (mapGet spendBy p.1).getD 0
  let cac := if p.2.customers ≠ 0 then spend / (p.2.customers : ℚ) else 0
  let avgLtv :=
    if p.2.customers ≠ 0 then p.2.totalLtv / (p.2.customers : ℚ) else 0
  { channelId := p.1
    cac := cac
    spend := spend
    acquiredCustomers := p.2.customers
    highLtvCustomers := p.2.high
    highLtvShare :=
      if p.2.customers ≠ 0 then (p.2.high : ℚ) / (p.2.customers : ℚ) else 0
    netValue := avgLtv - cac
    avgLtv := avgLtv }

/-- `computeChannelMetrics` (computeEngine.ts, lines 228-312). -/
def computeChannelMetrics (customerMetrics : List CustomerMetricsRecord)
    (customers : List CustomerRecord) (channels : List ChannelRecord)
    (acquiredVia : List AcquiredViaRecord)
    (spendDaily : List ChannelSpendDailyRecord) (config : ModelConfigRecord)
    (now : ℚ) : List ChannelMetricsRecord :=
  let attrib := attributionMap config customers acquiredVia
  let spendBy := resolveSpend config channels spendDaily now
  (channelAggregates customerMetrics attrib).map (channelMetricsRow spendBy)

/-! ## Pipeline state (`runComputePipeline`, computeEngine.ts lines 21-105) -/

inductive JobStatus where
  | IDLE
  | RUNNING
  | COMPLETED
  | FAILED
  | INTERRUPTED
deriving DecidableEq, Repr

structure JobRec where
  status : JobStatus
  processedRows : ℕ
  phase : String
deriving DecidableEq, Repr

structure AuditEntry where
  type : String
  customers : ℕ
  channels : ℕ
deriving DecidableEq, Repr

structure Snapshot where
  customers : List CustomerRecord
  transactions : List TransactionRecord
  events : List EventRecord
  channels : List ChannelRecord
  acquiredVia : List AcquiredViaRecord
  spendDaily : List ChannelSpendDailyRecord
deriving Repr

structure DbState where
  customerMetrics : List CustomerMetricsRecord
  segmentMetrics : List SegmentMetricsRecord
  channelMetrics : List ChannelMetricsRecord
  jobs : List (String × JobRec)
  auditLog : List AuditEntry
  modelConfig : Option ModelConfigRecord
deriving Repr

/-- `db.jobs.update(jobId, { phase, ... })`: update only the phase of an
existing job record (Dexie `update` is a no-op for a missing key). -/
def updateJobPhase (jobs : List (String × JobRec)) (jobId : String)
    (phase : String) : List (String × JobRec) :=
  match mapGet jobs jobId with
  | none => jobs
  | some j => mapSet jobs jobId { j with phase := phase }

/-- `runComputePipeline` (computeEngine.ts, lines 21-105) as a pure state
transformer.  `aggExn = some msg` injects an unexpected exception (message
`msg`) thrown during the aggregation phase, after the "computing customer
metrics" progress note; the rejection reaches the caller as `.error msg`. -/
def runComputePipeline (snap : Snapshot) (st : DbState) (jobId : String)
    (now : ℚ) (aggExn : Option String) :
    DbState × Except String (ℕ × ℕ) :=
  let config := st.modelConfig.getD defaultModelConfig
  -- db.jobs.put({ status: 'RUNNING', processedRows: 0, phase: 'loading data' })
  let st1 : DbState :=
    { st with jobs := mapSet st.jobs jobId ⟨.RUNNING, 0, "loading data"⟩ }
  -- noteProgress('computing customer metrics')
  let st2 : DbState :=
    { st1 with jobs := updateJobPhase st1.jobs jobId "computing customer metrics" }
  match aggExn with
  | some msg => (st2, .error msg)
  | none =>
    let churnDates := buildChurnMap snap.events config
    let totals := computeCustomerTotals snap.customers snap.transactions churnDates config
    let segments := assignSegments totals config
    let customerMetrics := buildCustomerMetrics totals segments
    -- noteProgress('computing channel metrics')
    let st3 : DbState :=
      { st2 with jobs := updateJobPhase st2.jobs jobId "computing channel metrics" }
    let channelMetrics :=
      computeChannelMetrics customerMetrics snap.customers snap.channels
        snap.acquiredVia snap.spendDaily config now
    let segmentMetrics := summarizeSegments customerMetrics
    -- noteProgress('writing materialized tables')
    let st4 : DbState :=
      { st3 with jobs := updateJobPhase st3.jobs jobId "writing materialized tables" }
    -- atomic transaction: clear + bulkAdd of the three derived tables
    let st5 : DbState :=
      { st4 with
        customerMetrics := customerMetrics
        segmentMetrics := segmentMetrics
        channelMetrics := channelMetrics }
    -- db.jobs.update: status COMPLETED
    let st6 : DbState :=
      { st5 with
        jobs :=
          match mapGet st5.jobs jobId with
          | none => st5.jobs
          | some _ =>
              mapSet st5.jobs jobId
                ⟨.COMPLETED, customerMetrics.length, "done"⟩ }
    -- db.auditLog.add({ type: 'RECOMPUTE', payload: { customers, channels } })
    let st7 : DbState :=
      { st6 with
        auditLog :=
          st6.auditLog ++
            [⟨"RECOMPUTE", customerMetrics.length, channelMetrics.length⟩] }
    (st7, .ok (customerMetrics.length, channelMetrics.length))

/-! ## Spend reallocation recommender (`src/utils/spendPlan.ts`) -/

inductive AllocationStrategy where
  | high_efficiency
  | maximize_revenue
  | stability
deriving DecidableEq, Repr

/-- The fields of `ChannelMetricsRecord` the recommender reads
(`RecommendationInput` in spendPlan.ts). -/
structure RecommendationInput where
  channelId : String
  cac : ℚ
  highLtvShare : ℚ
  spend : ℚ
  avgLtv : ℚ
  netValue : ℚ
  acquiredCustomers : ℚ
deriving DecidableEq, Repr

structure ActionPlanItem where
  channelId : String
  currentSpend : ℚ
  proposedSpend : ℚ
  delta : ℚ
  rationale : String
deriving DecidableEq, Repr

/-- `SHIFT_BY_STRATEGY` (spendPlan.ts, lines 10-14). -/
def shiftByStrategy : AllocationStrategy → ℚ
  | .high_efficiency => 12/100
  | .maximize_revenue => 18/100
  | .stability => 6/100

/-- `HOLD_RATIONALE` (wording abbreviated; rationale text is display-only). -/
def holdRationale : AllocationStrategy → String
  | .high_efficiency => "hold high_efficiency"
  | .maximize_revenue => "hold maximize_revenue"
  | .stability => "hold stability"

/-- `ratioOf` (spendPlan.ts, lines 29-33): `0` when `cac ≤ 0` or
`avgLtv ≤ 0`, else `avgLtv / cac`.  (The `Number.isFinite` guards cannot fire
for rational values.) -/
def ratioOf (c : RecommendationInput) : ℚ :=
  if c.cac ≤ 0 then 0 else if c.avgLtv ≤ 0 then 0 else c.avgLtv / c.cac

/-- `uniqueTargets` (spendPlan.ts, lines 35-42): keep the first occurrence of
each `channelId`. -/
def uniqueTargetsGo (seen : List String) :
    List RecommendationInput → List RecommendationInput
  | [] => []
  | t :: rest =>
      if t.channelId ∈ seen then uniqueTargetsGo seen rest
      else t :: uniqueTargetsGo (t.channelId :: seen) rest

def uniqueTargets (targets : List RecommendationInput) :
    List RecommendationInput :=
  uniqueTargetsGo [] targets

/-- Boolean `le` for the stable sort
`sort((a, b) => b.highLtvShare - a.highLtvShare || ratioOf(b) - ratioOf(a))`. -/
def leByHighShare (a b : RecommendationInput) : Bool :=
  if a.highLtvShare = b.highLtvShare then decide (ratioOf b ≤ ratioOf a)
  else decide (b.highLtvShare < a.highLtvShare)

/-- Boolean `le` for `sort((a, b) => ratioOf(a) - ratioOf(b))`. -/
def leByRatioAsc (a b : RecommendationInput) : Bool :=
  decide (ratioOf a ≤ ratioOf b)

/-- Boolean `le` for the sort by `avgLtv * acquiredCustomers` descending, then
`netValue` descending. -/
def leByValueDesc (a b : RecommendationInput) : Bool :=
  if a.avgLtv * a.acquiredCustomers = b.avgLtv * b.acquiredCustomers then
    decide (b.netValue ≤ a.netValue)
  else decide (b.avgLtv * b.acquiredCustomers < a.avgLtv * a.acquiredCustomers)

/-- `inc.length || 1` — JavaScript `||` on a length. -/
def lengthOr1 (n : ℕ) : ℕ := if n = 0 then 1 else n

/-- `pickTargets` (spendPlan.ts, lines 44-115). -/
def pickTargets (strategy : AllocationStrategy)
    (metrics : List RecommendationInput) :
    List RecommendationInput × List RecommendationInput :=
  let byHighShare := metrics.mergeSort leByHighShare
  let byRatioAsc := metrics.mergeSort leByRatioAsc
  let byValueDesc := metrics.mergeSort leByValueDesc
  match strategy with
  | .maximize_revenue =>
    let positive := byValueDesc.filter (fun c => decide (0 < c.netValue))
    let increaseTargets :=
      uniqueTargets
        ((if positive ≠ [] then positive else byValueDesc).take
          (max 3 ((metrics.length + 2) / 3)))
    let decreaseCandidates :=
      byRatioAsc.filter (fun c => decide (c.netValue ≤ 0 ∨ ratioOf c < 7/5))
    let decreaseTargets :=
      uniqueTargets
        ((if decreaseCandidates ≠ [] then decreaseCandidates else byRatioAsc).take
          (max 3 (lengthOr1 increaseTargets.length)))
    (increaseTargets, decreaseTargets)
  | .stability =>
    let inc0 :=
      uniqueTargets
        ((metrics.filter (fun c => decide (2 ≤ ratioOf c ∧ ratioOf c ≤ 7/2))).take 4)
    let increaseTargets :=
      if inc0 = [] then uniqueTargets (byHighShare.take (min 2 byHighShare.length))
      else inc0
    let dec0 :=
      uniqueTargets
        ((byRatioAsc.filter (fun c => decide (ratioOf c < 6/5))).take
          (max 2 (lengthOr1 increaseTargets.length)))
    let decreaseTargets :=
      if dec0 = [] then uniqueTargets (byRatioAsc.take (min 2 byRatioAsc.length))
      else dec0
    (increaseTargets, decreaseTargets)
  | .high_efficiency =>
    let inc0 :=
      uniqueTargets
        ((byHighShare.filter
            (fun c => decide (3/10 ≤ c.highLtvShare ∧ 2 ≤ ratioOf c))).take 4)
    let increaseTargets :=
      if inc0 = [] then uniqueTargets (byHighShare.take (min 3 byHighShare.length))
      else inc0
    let dec0 :=
      uniqueTargets
        ((byRatioAsc.filter (fun c => decide (ratioOf c < 6/5)) ++
            byHighShare.filter (fun c => decide (c.highLtvShare < 3/20))).take
          (max 3 (lengthOr1 increaseTargets.length)))
    let decreaseTargets :=
      if dec0 = [] then uniqueTargets (byRatioAsc.take (min 2 byRatioAsc.length))
      else dec0
    (increaseTargets, decreaseTargets)

/-- Index of the entry a JavaScript `Map` built with
`new Map(items.map(i => [i.channelId, i]))` returns for `id`: with duplicate
keys the later entry wins, and the map values alias the list's objects, so a
mutation through the map lands on the *last* item with that `channelId`. -/
def lastIdxOf : List ActionPlanItem → String → Option ℕ
  | [], _ => none
  | it :: rest, id =>
      match lastIdxOf rest id with
      | some j => some (j + 1)
      | none => if it.channelId = id then some 0 else none

inductive Direction where
  | increase
  | decrease
deriving DecidableEq, Repr

/-- State threaded through the `targets.forEach` loop of `applyAdjustments`:
the (mutated) items list, the running `remaining` and `applied` totals, and
the `touched` set. -/
structure AdjState where
  items : List ActionPlanItem
  remaining : ℚ
  applied : ℚ
  touched : List String
deriving Repr

/-- One iteration of the `targets.forEach` loop in `applyAdjustments`
(spendPlan.ts, lines 128-152), for a target with `restLen` targets after it
(`availableSlots = targets.length - index = restLen + 1`). -/
def adjBody (direction : Direction)
    (rationaleBuilder : RecommendationInput → ℚ → ℚ → String)
    (st : AdjState) (channel : RecommendationInput) (restLen : ℕ) : AdjState :=
  if st.remaining ≤ 0 then st
  else
    match lastIdxOf st.items channel.channelId with
    | none => st
    | some i =>
    match st.items[i]? with
    | none => st
    | some item =>
      let availableSlots : ℕ := restLen + 1
      let share := st.remaining / (availableSlots : ℚ)
      let ratio := ratioOf channel
      match direction with
      | .increase =>
        let proposed := item.currentSpend + share
        { items :=
            st.items.set i
              { item with
                proposedSpend := proposed
                delta := proposed - item.currentSpend
                rationale := rationaleBuilder channel share ratio }
          remaining := st.remaining - share
          applied := st.applied + share
          touched := st.touched ++ [channel.channelId] }
      | .decrease =>
        let reducible := min share item.proposedSpend
        if reducible ≤ 0 then st
        else
          let proposed := max 0 (item.proposedSpend - reducible)
          { items :=
              st.items.set i
                { item with
                  proposedSpend := proposed
                  delta := proposed - item.currentSpend
                  rationale := rationaleBuilder channel reducible ratio }
            remaining := st.remaining - reducible
            applied := st.applied + reducible
            touched := st.touched ++ [channel.channelId] }

/-- The `targets.forEach` loop in `applyAdjustments`, modelled by structural
recursion on the not-yet-processed suffix. -/
def adjLoop (direction : Direction)
    (rationaleBuilder : RecommendationInput → ℚ → ℚ → String) :
    AdjState → List RecommendationInput → AdjState
  | st, [] => st
  | st, channel :: rest =>
    adjLoop direction rationaleBuilder
      (adjBody direction rationaleBuilder st channel rest.length) rest

/-- `applyAdjustments` (spendPlan.ts, lines 117-154).  Returns the final loop
state; the source function returns `applied` and mutates the shared items. -/
def applyAdjustments (items : List ActionPlanItem)
    (targets : List RecommendationInput) (total : ℚ) (direction : Direction)
    (rationaleBuilder : RecommendationInput → ℚ → ℚ → String)
    (touched : List String) : AdjState :=
  if targets = [] ∨ total ≤ 0 then ⟨items, total, 0, touched⟩
  else adjLoop direction rationaleBuilder ⟨items, total, 0, touched⟩ targets

/-- Decrease-pass rationale builder (wording abbreviated). -/
def decreaseRationale (_channel : RecommendationInput) (_amount _ratio : ℚ) :
    String :=
  "decrease"

/-- Increase-pass rationale builder (wording abbreviated). -/
def increaseRationale (_channel : RecommendationInput) (_amount _ratio : ℚ) :
    String :=
  "increase"

/-- The `baseItems` array of `generateRecommendations` (spendPlan.ts,
lines 162-168): one hold item per metrics row, proposed = current = spend. -/
def baseItemsOf (strategy : AllocationStrategy)
    (channelMetrics : List RecommendationInput) : List ActionPlanItem :=
  channelMetrics.map (fun c =>
    { channelId := c.channelId
      currentSpend := c.spend
      proposedSpend := c.spend
      delta := 0
      rationale := holdRationale strategy })

/-- The filtered decrease-target list of `generateRecommendations`
(spendPlan.ts, line 177): decrease targets whose `channelId` also appears
among the increase targets are dropped. -/
def decTargetsOf (increaseTargets decreaseTargets : List RecommendationInput) :
    List RecommendationInput :=
  decreaseTargets.filter (fun t =>
    !(increaseTargets.any (fun inc => inc.channelId = t.channelId)))

/-- The `decreaseBudget` of `generateRecommendations` (spendPlan.ts,
lines 173-174): `SHIFT_BY_STRATEGY[strategy] * totalSpend` when there is at
least one increase target, else `0`. -/
def decreaseBudgetOf (strategy : AllocationStrategy)
    (channelMetrics : List RecommendationInput) : ℚ :=
  if (pickTargets strategy channelMetrics).1 ≠ [] then
    shiftByStrategy strategy * (channelMetrics.map (fun c => c.spend)).sum
  else 0

/-- The state after the decrease pass of `generateRecommendations`
(spendPlan.ts, lines 175-191); `actualDecrease` is its `applied` field. -/
def decStateOf (strategy : AllocationStrategy)
    (channelMetrics : List RecommendationInput) : AdjState :=
  applyAdjustments (baseItemsOf strategy channelMetrics)
    (decTargetsOf (pickTargets strategy channelMetrics).1
      (pickTargets strategy channelMetrics).2)
    (decreaseBudgetOf strategy channelMetrics) .decrease decreaseRationale []

/-- The state after the increase pass of `generateRecommendations`
(spendPlan.ts, lines 193-209): the pool is `actualDecrease`. -/
def incStateOf (strategy : AllocationStrategy)
    (channelMetrics : List RecommendationInput) : AdjState :=
  applyAdjustments (decStateOf strategy channelMetrics).items
    (pickTargets strategy channelMetrics).1
    (decStateOf strategy channelMetrics).applied
    .increase increaseRationale (decStateOf strategy channelMetrics).touched

/-- `generateRecommendations` (spendPlan.ts, lines 156-218), assembled from
the stage definitions above.  The final loop resets untouched items to the
hold rationale (a no-op for items never given another rationale, mirrored
for fidelity). -/
def generateRecommendations (channelMetrics : List RecommendationInput)
    (strategy : AllocationStrategy) : List ActionPlanItem :=
  if channelMetrics = [] then []
  else
    (incStateOf strategy channelMetrics).items.map (fun item =>
      if item.channelId ∈ (incStateOf strategy channelMetrics).touched then item
      else { item with rationale := holdRationale strategy })

/-! ## Claim-side helper definitions -/

/-- The minimum of a list of dates, `none` for the empty list. -/
def minDate? : List ℚ → Option ℚ
  | [] => none
  | d :: rest =>
      match minDate? rest with
      | none => some d
      | some m => some (min d m)

/-- The maximum of a list of dates, `none` for the empty list. -/
def maxDate? : List ℚ → Option ℚ
  | [] => none
  | d :: rest =>
      match maxDate? rest with
      | none => some d
      | some m => some (max d m)

/-- The aggregate a list of (included) transactions should produce for one
customer: summed revenue, transaction count, and min/max transaction date. -/
def includedAggregate (txns : List TransactionRecord) : CustomerAggregate :=
  { ltv := (txns.map TransactionRecord.revenueAmount).sum
    txnCount := txns.length
    first := minDate? (txns.map TransactionRecord.date)
    last := maxDate? (txns.map TransactionRecord.date) }

/-! ## Lemmas about the `Map` model -/

theorem mapGet_mapSet_self {K V : Type} [DecidableEq K]
    (m : List (K × V)) (k : K) (v : V) : mapGet (mapSet m k v) k = some v := by
  induction m with
  | nil => simp [mapSet, mapGet]
  | cons p rest ih =>
      by_cases h : p.1 = k
      · simp [mapSet, mapGet, h]
      · simp [mapSet, mapGet, h, ih]

theorem mapGet_mapSet_ne {K V : Type} [DecidableEq K]
    (m : List (K × V)) {k k' : K} (v : V) (h : k ≠ k') :
    mapGet (mapSet m k v) k' = mapGet m k' := by
  induction m with
  | nil => simp [mapSet, mapGet, h]
  | cons p rest ih =>
      by_cases hp : p.1 = k
      · simp [mapSet, mapGet, hp, h]
      · by_cases hp' : p.1 = k'
        · simp [mapSet, mapGet, hp, hp', Ne.symm h]
        · simp [mapSet, mapGet, hp, hp', ih]

/-- A fold whose every step preserves `mapGet · k` preserves it overall. -/
theorem mapGet_foldl_congr {K V β : Type} [DecidableEq K]
    (l : List β) (step : List (K × V) → β → List (K × V))
    (init : List (K × V)) (k : K)
    (h : ∀ m b, b ∈ l → mapGet (step m b) k = mapGet m k) :
    mapGet (l.foldl step init) k = mapGet init k := by
  induction l generalizing init with
  | nil => rfl
  | cons b rest ih =>
      rw [List.foldl_cons, ih]
      · exact h init b (by simp)
      · intro m b' hb'
        exact h m b' (by simp [hb'])

/-! ## C1: failure during aggregation -/

/-- C1 (counterexample): running the pipeline with an exception injected
during aggregation leaves the job-status record with status `RUNNING`, not
`FAILED`, refuting the claimed `RUNNING → FAILED` transition at a concrete
input. -/
theorem C1_counterexample :
    (mapGet (OLO.runComputePipeline ⟨[], [], [], [], [], []⟩
        ⟨[], [], [], [], [], none⟩ "job-1" 0 (some "boom")).1.jobs
      "job-1").map JobRec.status = some JobStatus.RUNNING ∧
    JobStatus.RUNNING ≠ JobStatus.FAILED := by
  constructor
  · rfl
  · decide

/-- C1 (amended): if the recompute pipeline raises an unexpected exception
during aggregation, the three derived tables retain their prior materialized
contents with no partial update, no RECOMPUTE audit entry is written, and the
error message propagates to the caller (the worker posts it as an error
response); however the job-status record is *not* transitioned to FAILED — it
retains its last written status, RUNNING. -/
theorem C1_failure_aborts_cleanly (snap : Snapshot) (st : DbState)
    (jobId : String) (now : ℚ) (msg : String) :
    (runComputePipeline snap st jobId now (some msg)).1.customerMetrics =
        st.customerMetrics ∧
    (runComputePipeline snap st jobId now (some msg)).1.segmentMetrics =
        st.segmentMetrics ∧
    (runComputePipeline snap st jobId now (some msg)).1.channelMetrics =
        st.channelMetrics ∧
    (runComputePipeline snap st jobId now (some msg)).1.auditLog =
        st.auditLog ∧
    (runComputePipeline snap st jobId now (some msg)).2 = .error msg ∧
    (mapGet (runComputePipeline snap st jobId now (some msg)).1.jobs
        jobId).map JobRec.status = some JobStatus.RUNNING := by
  refine ⟨rfl, rfl, rfl, rfl, rfl, ?_⟩
  show (mapGet (updateJobPhase (mapSet st.jobs jobId ⟨.RUNNING, 0, "loading data"⟩)
      jobId "computing customer metrics") jobId).map JobRec.status = _
  rw [updateJobPhase, mapGet_mapSet_self, mapGet_mapSet_self]
  rfl

/-- Keys reachable in `mapSet m k v` are keys of `m` or `k`. -/
theorem mem_keys_mapSet {K V : Type} [DecidableEq K]
    {m : List (K × V)} {k x : K} {v : V}
    (h : x ∈ (mapSet m k v).map Prod.fst) :
    x ∈ m.map Prod.fst ∨ x = k := by
  induction m with
  | nil => simp [mapSet] at h; simp [h]
  | cons p rest ih =>
      by_cases hp : p.1 = k
      · simp [mapSet, hp] at h
        rcases h with h | h
        · exact .inr h
        · exact .inl (by simp [List.mem_map] at h ⊢; exact .inr h)
      · simp [mapSet, hp] at h
        rcases h with h | h
        · exact .inl (by simp [h])
        · rcases ih (by simpa [List.mem_map] using h) with h' | h'
          · exact .inl (by simp [List.mem_map] at h' ⊢; exact .inr h')
          · exact .inr h'

/-- `mapSet` preserves uniqueness of keys. -/
theorem nodup_keys_mapSet {K V : Type} [DecidableEq K]
    {m : List (K × V)} (k : K) (v : V)
    (h : (m.map Prod.fst).Nodup) : ((mapSet m k v).map Prod.fst).Nodup := by
  induction m with
  | nil => simp [mapSet]
  | cons p rest ih =>
      by_cases hp : p.1 = k
      · simpa [mapSet, hp] using (by simpa [hp] using h)
      · simp only [List.map_cons, List.nodup_cons] at h
        have : mapSet (p :: rest) k v = p :: mapSet rest k v := by
          simp [mapSet, hp]
        rw [this, List.map_cons, List.nodup_cons]
        refine ⟨?_, ih h.2⟩
        intro hmem
        rcases mem_keys_mapSet hmem with h' | h'
        · exact h.1 h'
        · exact hp h'

/-- A fold whose steps preserve key-uniqueness preserves it overall. -/
theorem nodup_keys_foldl {K V β : Type} [DecidableEq K]
    (l : List β) (step : List (K × V) → β → List (K × V))
    (init : List (K × V))
    (hstep : ∀ m b, (m.map Prod.fst).Nodup → ((step m b).map Prod.fst).Nodup)
    (hinit : (init.map Prod.fst).Nodup) :
    ((l.foldl step init).map Prod.fst).Nodup := by
  induction l generalizing init with
  | nil => exact hinit
  | cons b rest ih => exact ih (step init b) (hstep init b hinit)

/-! ## C9: recompute over an empty snapshot -/

theorem mapGet_updateJobPhase_self (jobs : List (String × JobRec))
    (jobId phase : String) :
    mapGet (updateJobPhase jobs jobId phase) jobId =
      (mapGet jobs jobId).map (fun r => { r with phase := phase }) := by
  cases h : mapGet jobs jobId with
  | none => simp [updateJobPhase, h]
  | some r => simp [updateJobPhase, h, mapGet_mapSet_self]

/-- C9 (counterexample): recomputing an entirely empty project writes a
`SegmentMetrics` table with three rows (one per segment key, all counts
zero), not an empty one, refuting "SegmentMetrics ... contain[s] no rows". -/
theorem C9_counterexample :
    ((OLO.runComputePipeline ⟨[], [], [], [], [], []⟩
        ⟨[], [], [], [], [], none⟩ "job-9" 0 none).1.segmentMetrics).length = 3 ∧
    (3 : ℕ) ≠ 0 := by
  constructor
  · rfl
  · decide

/-- C9 (amended): recompute over a project snapshot with zero customers,
transactions, events and edges completes successfully with no division
error, leaves `CustomerMetrics` and `ChannelMetrics` empty, writes one
all-zero `SegmentMetrics` row per segment key (HIGH, MID, LOW) rather than
an empty table, marks the job COMPLETED, and appends a RECOMPUTE audit entry
with counts customers = 0 and channels = 0. -/
theorem C9_empty_snapshot_recompute (channels : List ChannelRecord)
    (spendDaily : List ChannelSpendDailyRecord) (st : DbState)
    (jobId : String) (now : ℚ) :
    (runComputePipeline ⟨[], [], [], channels, [], spendDaily⟩ st jobId now
        none).1.customerMetrics = [] ∧
    (runComputePipeline ⟨[], [], [], channels, [], spendDaily⟩ st jobId now
        none).1.channelMetrics = [] ∧
    (runComputePipeline ⟨[], [], [], channels, [], spendDaily⟩ st jobId now
        none).1.segmentMetrics =
      [⟨.HIGH, 0, 0, 0, 0⟩, ⟨.MID, 0, 0, 0, 0⟩, ⟨.LOW, 0, 0, 0, 0⟩] ∧
    (runComputePipeline ⟨[], [], [], channels, [], spendDaily⟩ st jobId now
        none).2 = .ok (0, 0) ∧
    (runComputePipeline ⟨[], [], [], channels, [], spendDaily⟩ st jobId now
        none).1.auditLog = st.auditLog ++ [⟨"RECOMPUTE", 0, 0⟩] ∧
    (mapGet (runComputePipeline ⟨[], [], [], channels, [], spendDaily⟩ st
        jobId now none).1.jobs jobId).map JobRec.status =
      some JobStatus.COMPLETED := by
  refine ⟨rfl, rfl, rfl, rfl, rfl, ?_⟩
  have hj : mapGet (updateJobPhase (updateJobPhase (updateJobPhase
      (mapSet st.jobs jobId ⟨.RUNNING, 0, "loading data"⟩) jobId
        "computing customer metrics") jobId "computing channel metrics")
      jobId "writing materialized tables") jobId =
      some ⟨.RUNNING, 0, "writing materialized tables"⟩ := by
    rw [mapGet_updateJobPhase_self, mapGet_updateJobPhase_self,
      mapGet_updateJobPhase_self, mapGet_mapSet_self]
    rfl
  simp only [runComputePipeline]
  rw [hj]
  rw [mapGet_mapSet_self]
  rfl

/-! ## C4: attribution in `acquired_via` mode -/

/-- The first-edge-wins fold, characterized: the result at `c` is the entry
already in the accumulator, or else the first edge of the suffix whose
`customerId` is `c`. -/
theorem mapGet_foldl_firstEdgeStep (edges : List AcquiredViaRecord)
    (m : List (String × String)) (c : String) :
    mapGet (edges.foldl firstEdgeStep m) c =
      (mapGet m c).or
        ((edges.find? (fun e => decide (e.customerId = c))).map
          AcquiredViaRecord.channelId) := by
  induction edges generalizing m with
  | nil => rw [List.foldl_nil]; cases mapGet m c <;> simp
  | cons e rest ih =>
      rw [List.foldl_cons, ih]
      by_cases hc : e.customerId = c
      · subst hc
        cases hm : mapGet m e.customerId with
        | some w =>
            have : firstEdgeStep m e = m := by
              simp [firstEdgeStep, mapHas, hm]
            rw [this, hm]
            simp
        | none =>
            have : firstEdgeStep m e = mapSet m e.customerId e.channelId := by
              simp [firstEdgeStep, mapHas, hm]
            rw [this, mapGet_mapSet_self]
            simp
      · have hget : mapGet (firstEdgeStep m e) c = mapGet m c := by
          unfold firstEdgeStep
          by_cases hhas : mapHas m e.customerId
          · simp [hhas]
          · simp [hhas, mapGet_mapSet_ne m e.channelId hc]
        rw [hget]
        simp [List.find?_cons, hc]

theorem mapGet_firstEdgeMap (edges : List AcquiredViaRecord) (c : String) :
    mapGet (firstEdgeMap edges) c =
      (edges.find? (fun e => decide (e.customerId = c))).map
        AcquiredViaRecord.channelId := by
  rw [firstEdgeMap, mapGet_foldl_firstEdgeStep]
  rfl

/-- The attribution map has unique keys in every mode: a customer is
attributed to at most one channel. -/
theorem attributionMap_keys_nodup (config : ModelConfigRecord)
    (customers : List CustomerRecord) (edges : List AcquiredViaRecord) :
    ((attributionMap config customers edges).map Prod.fst).Nodup := by
  have hfe : ((firstEdgeMap edges).map Prod.fst).Nodup := by
    refine nodup_keys_foldl edges firstEdgeStep [] ?_ (by simp)
    intro m b hm
    unfold firstEdgeStep
    by_cases hhas : mapHas m b.customerId
    · simpa [hhas]
    · simpa [hhas] using nodup_keys_mapSet b.customerId b.channelId hm
  have hcf : ((channelFieldMap customers).map Prod.fst).Nodup := by
    refine nodup_keys_foldl customers _ [] ?_ (by simp)
    intro m c hm
    cases hsrc : c.channelSourceId with
    | none => simpa [hsrc]
    | some src => simpa [hsrc] using nodup_keys_mapSet c.customerId src hm
  unfold attributionMap
  by_cases h1 : config.attributionMode = .acquired_via ∧ edges ≠ []
  · simpa [h1]
  · simp only [h1, if_false]
    by_cases h2 : channelFieldMap customers = [] ∧ edges ≠ []
    · simpa [h2]
    · simpa [h2]

/-- C4 (counterexample): in mode `acquired_via` with an *empty* edge list,
the code falls through to the `channel_field` branch and consults
`Customer.channelSourceId`, so customer `c1` — referenced by no edge —
still receives an attribution, refuting "a customer referenced by no edge
receives no attribution, and Customer.channelSourceId is not consulted". -/
theorem C4_counterexample :
    mapGet (OLO.attributionMap
        { defaultModelConfig with attributionMode := .acquired_via }
        [⟨"c1", none, some "ch1"⟩] []) "c1" = some "ch1" ∧
    some "ch1" ≠ (none : Option String) := by
  constructor
  · rfl
  · simp

/-- C4 (amended): in attribution mode `acquired_via`, *provided the edge list
is non-empty*, the customer-to-channel map assigns each customer the
channelId of the first AcquiredVia edge listed for them (later edges never
overwrite), a customer referenced by no edge receives no attribution, and
`Customer.channelSourceId` is not consulted (the map is a function of the
edges alone); when the edge list is empty the code instead falls back to the
`channel_field` behaviour.  In every mode the attribution map has unique
keys, so each customer is attributed to at most one channel. -/
theorem C4_acquired_via_first_edge_wins (config : ModelConfigRecord)
    (customers : List CustomerRecord) (edges : List AcquiredViaRecord)
    (hmode : config.attributionMode = .acquired_via) (hne : edges ≠ []) :
    (∀ c : String,
      mapGet (attributionMap config customers edges) c =
        (edges.find? (fun e => decide (e.customerId = c))).map
          AcquiredViaRecord.channelId) ∧
    ∀ (cfg : ModelConfigRecord) (cs : List CustomerRecord)
      (es : List AcquiredViaRecord),
      ((attributionMap cfg cs es).map Prod.fst).Nodup := by
  constructor
  · intro c
    have : attributionMap config customers edges = firstEdgeMap edges := by
      unfold attributionMap
      simp [hmode, hne]
    rw [this, mapGet_firstEdgeMap]
  · exact attributionMap_keys_nodup

/-- Witness for C4: two edges for the same customer; the first one wins, and
a customer with no edge gets no attribution even though it has a
`channelSourceId`. -/
theorem C4_acquired_via_first_edge_wins_witness :
    (({ defaultModelConfig with attributionMode := .acquired_via } :
        ModelConfigRecord).attributionMode = .acquired_via ∧
      ([⟨"c1", "chA"⟩, ⟨"c1", "chB"⟩] : List AcquiredViaRecord) ≠ []) ∧
    mapGet (attributionMap
        { defaultModelConfig with attributionMode := .acquired_via }
        [⟨"c2", none, some "chX"⟩] [⟨"c1", "chA"⟩, ⟨"c1", "chB"⟩]) "c1" =
      some "chA" ∧
    mapGet (attributionMap
        { defaultModelConfig with attributionMode := .acquired_via }
        [⟨"c2", none, some "chX"⟩] [⟨"c1", "chA"⟩, ⟨"c1", "chB"⟩]) "c2" =
      none := by
  refine ⟨⟨rfl, by simp⟩, ?_, ?_⟩
  · rw [(C4_acquired_via_first_edge_wins _ [⟨"c2", none, some "chX"⟩] _
      rfl (by simp)).1 "c1"]
    rfl
  · rw [(C4_acquired_via_first_edge_wins _ [⟨"c2", none, some "chX"⟩] _
      rfl (by simp)).1 "c2"]
    rfl

/-! ## C5: spend resolution in `daily` mode -/

/-- `ensureChannelStep` never disturbs a key that already has an entry. -/
theorem mapGet_foldl_ensure_of_isSome (chs : List ChannelRecord)
    (m : List (String × ℚ)) (k : String) (h : (mapGet m k).isSome) :
    mapGet (chs.foldl ensureChannelStep m) k = mapGet m k := by
  induction chs generalizing m with
  | nil => rfl
  | cons ch rest ih =>
      rw [List.foldl_cons]
      have hstep : mapGet (ensureChannelStep m ch) k = mapGet m k := by
        unfold ensureChannelStep
        by_cases hhas : mapHas m ch.channelId
        · simp [hhas]
        · by_cases hk : ch.channelId = k
          · subst hk
            exact absurd (by simpa [mapHas] using h) hhas
          · simp [hhas, mapGet_mapSet_ne m 0 hk]
      rw [ih (ensureChannelStep m ch) (by rw [hstep]; exact h), hstep]

/-- After the ensure-loop, every channel in the table has a spend entry:
the prior value, or `0` when absent. -/
theorem mapGet_foldl_ensure_mem (chs : List ChannelRecord)
    (m : List (String × ℚ)) (k : String)
    (hk : k ∈ chs.map ChannelRecord.channelId) :
    mapGet (chs.foldl ensureChannelStep m) k = some ((mapGet m k).getD 0) := by
  induction chs generalizing m with
  | nil => simp at hk
  | cons ch rest ih =>
      rw [List.foldl_cons]
      by_cases hc : ch.channelId = k
      · subst hc
        cases hm : mapGet m ch.channelId with
        | some v =>
            have hstep : ensureChannelStep m ch = m := by
              simp [ensureChannelStep, mapHas, hm]
            rw [hstep, mapGet_foldl_ensure_of_isSome rest m _ (by simp [hm]),
              hm]
            rfl
        | none =>
            have hstep : ensureChannelStep m ch =
                mapSet m ch.channelId 0 := by
              simp [ensureChannelStep, mapHas, hm]
            rw [hstep,
              mapGet_foldl_ensure_of_isSome rest _ _
                (by simp [mapGet_mapSet_self]),
              mapGet_mapSet_self]
            rfl
      · have hk' : k ∈ rest.map ChannelRecord.channelId := by
          rcases List.mem_map.1 hk with ⟨a, ha, hak⟩
          rcases List.mem_cons.1 ha with rfl | ha'
          · exact absurd hak hc
          · exact List.mem_map.2 ⟨a, ha', hak⟩
        have hstep : mapGet (ensureChannelStep m ch) k = mapGet m k := by
          unfold ensureChannelStep
          by_cases hhas : mapHas m ch.channelId
          · simp [hhas]
          · simp [hhas, mapGet_mapSet_ne m 0 hc]
        rw [ih (ensureChannelStep m ch) hk', hstep]

/-- The daily-spend accumulation fold, characterized per channel. -/
theorem getD_foldl_dailySpendStep (rows : List ChannelSpendDailyRecord)
    (cutoff : Option ℚ) (m : List (String × ℚ)) (k : String) :
    (mapGet (rows.foldl (dailySpendStep cutoff) m) k).getD 0 =
      (mapGet m k).getD 0 +
        ((rows.filter (fun r =>
            decide (r.channelId = k) && !spendRowExcluded cutoff r)).map
          ChannelSpendDailyRecord.spend).sum := by
  induction rows generalizing m with
  | nil => simp
  | cons r rest ih =>
      rw [List.foldl_cons, ih]
      by_cases hex : spendRowExcluded cutoff r
      · have hstep : dailySpendStep cutoff m r = m := by
          simp [dailySpendStep, hex]
        rw [hstep, List.filter_cons]
        simp [hex]
      · by_cases hc : r.channelId = k
        · subst hc
          have hstep : dailySpendStep cutoff m r =
              mapSet m r.channelId ((mapGet m r.channelId).getD 0 + r.spend) := by
            simp [dailySpendStep, hex]
          rw [hstep, mapGet_mapSet_self, List.filter_cons]
          simp [hex, add_assoc]
        · have hstep : mapGet (dailySpendStep cutoff m r) k = mapGet m k := by
            simp only [dailySpendStep, if_neg hex]
            exact mapGet_mapSet_ne m _ hc
          rw [hstep, List.filter_cons]
          simp [hc]

/-- C5 (counterexample): in `daily` mode with *no* daily rows at all, the
code falls back to `Channel.budgetSpend` — channel `ch1` resolves to its
budget figure 50, not to the sum (0) of its daily rows, refuting
"Channel.budgetSpend is never used in that run". -/
theorem C5_counterexample :
    mapGet (OLO.resolveSpend defaultModelConfig [⟨"ch1", some 50⟩] [] 0)
      "ch1" = some 50 ∧
    some (50 : ℚ) ≠ some (0 : ℚ) := by
  constructor
  · rfl
  · decide

/-- C5 (amended): when `cacSpendSource` is `daily` *and at least one daily
spend row exists*, every channel in the Channel table resolves to the sum of
its `ChannelSpendDaily` rows with `date ≥ now − cacLookbackDays` (all of its
rows when the lookback is null), zero when it has no qualifying rows, and
`Channel.budgetSpend` is not consulted (the resolved value is a function of
the daily rows alone); when the daily table is empty the code instead falls
back to `Channel.budgetSpend`.  (The lookback hypothesis excludes the two
JavaScript-falsiness edge cases `cacLookbackDays = 0` and a cutoff timestamp
of exactly `0`, where the code applies no date restriction.) -/
theorem C5_daily_spend_resolution (config : ModelConfigRecord)
    (channels : List ChannelRecord)
    (spendDaily : List ChannelSpendDailyRecord) (now : ℚ)
    (hsrc : config.cacSpendSource = .daily) (hne : spendDaily ≠ [])
    (hlb : ∀ d, config.cacLookbackDays = some d →
      d ≠ 0 ∧ now - d * dayMs ≠ 0) :
    ∀ ch ∈ channels,
      mapGet (resolveSpend config channels spendDaily now) ch.channelId =
        some (((spendDaily.filter (fun r =>
            decide (r.channelId = ch.channelId) &&
            (match config.cacLookbackDays with
              | some d => decide (now - d * dayMs ≤ r.date)
              | none => true))).map
          ChannelSpendDailyRecord.spend).sum) := by
  intro ch hch
  have hbase : resolveSpend config channels spendDaily now =
      channels.foldl ensureChannelStep
        (spendDaily.foldl (dailySpendStep (spendCutoff config now)) []) := by
    unfold resolveSpend
    simp [hsrc, hne]
  rw [hbase,
    mapGet_foldl_ensure_mem channels _ ch.channelId
      (List.mem_map.2 ⟨ch, hch, rfl⟩),
    getD_foldl_dailySpendStep]
  have hpred : ∀ r : ChannelSpendDailyRecord,
      (!spendRowExcluded (spendCutoff config now) r) =
        (match config.cacLookbackDays with
          | some d => decide (now - d * dayMs ≤ r.date)
          | none => true) := by
    intro r
    cases hl : config.cacLookbackDays with
    | none => simp [spendRowExcluded, spendCutoff, hl]
    | some d =>
        obtain ⟨hd, hcv⟩ := hlb d hl
        simp only [hl]
        have h1 : spendCutoff config now = some (now - d * dayMs) := by
          simp [spendCutoff, hl, hd]
        rw [h1]
        simp only [spendRowExcluded]
        rw [← decide_not]
        refine decide_eq_decide.mpr ?_
        constructor
        · intro hnot
          by_contra hlt
          exact hnot ⟨hcv, not_le.1 hlt⟩
        · intro hle hand
          exact absurd hle (not_le.2 hand.2)
  have hfilter :
      spendDaily.filter (fun r =>
          decide (r.channelId = ch.channelId) &&
          !spendRowExcluded (spendCutoff config now) r) =
        spendDaily.filter (fun r =>
          decide (r.channelId = ch.channelId) &&
          (match config.cacLookbackDays with
            | some d => decide (now - d * dayMs ≤ r.date)
            | none => true)) := by
    apply List.filter_congr
    intro r _
    rw [hpred r]
  rw [hfilter]
  simp [mapGet]

/-- Witness for C5: lookback of 2 days from `now = 10·dayMs`; a qualifying
row (30), a stale row (5, dropped), and another channel's row (7) resolve
channel `ch1` to 30, ignoring its budget figure 999. -/
theorem C5_daily_spend_resolution_witness :
    (({ defaultModelConfig with cacLookbackDays := some 2 } :
        ModelConfigRecord).cacSpendSource = .daily ∧
      ([⟨"ch1", 9 * dayMs, 30⟩, ⟨"ch1", dayMs, 5⟩, ⟨"ch2", 9 * dayMs, 7⟩] :
        List ChannelSpendDailyRecord) ≠ [] ∧
      ∀ d : ℚ, some (2 : ℚ) = some d → d ≠ 0 ∧ 10 * dayMs - d * dayMs ≠ 0) ∧
    mapGet (resolveSpend { defaultModelConfig with cacLookbackDays := some 2 }
        [⟨"ch1", some 999⟩]
        [⟨"ch1", 9 * dayMs, 30⟩, ⟨"ch1", dayMs, 5⟩, ⟨"ch2", 9 * dayMs, 7⟩]
        (10 * dayMs)) "ch1" = some 30 := by
  refine ⟨⟨rfl, by simp, ?_⟩, ?_⟩
  · intro d hd
    cases hd
    constructor
    · norm_num
    · rw [dayMs]; norm_num
  · rw [C5_daily_spend_resolution
      { defaultModelConfig with cacLookbackDays := some 2 }
      [⟨"ch1", some 999⟩]
      [⟨"ch1", 9 * dayMs, 30⟩, ⟨"ch1", dayMs, 5⟩, ⟨"ch2", 9 * dayMs, 7⟩]
      (10 * dayMs) rfl (by simp)
      (by
        intro d hd
        cases hd
        constructor
        · norm_num
        · rw [dayMs]; norm_num)
      ⟨"ch1", some 999⟩ (by simp)]
    norm_num [dayMs, List.filter_cons, List.filter_nil, defaultModelConfig]
    decide

/-! ## C8: channel-metrics row invariants -/

/-- An entry returned by `mapGet` is a member of the association list. -/
theorem mapGet_mem {K V : Type} [DecidableEq K]
    {m : List (K × V)} {k : K} {v : V} (h : mapGet m k = some v) :
    (k, v) ∈ m := by
  induction m with
  | nil => simp [mapGet] at h
  | cons p rest ih =>
      obtain ⟨a, b⟩ := p
      by_cases hp : a = k
      · simp only [mapGet, if_pos hp] at h
        subst hp
        injection h with h'
        subst h'
        exact List.mem_cons_self _ _
      · simp only [mapGet, if_neg hp] at h
        exact List.mem_cons_of_mem _ (ih h)

/-- A value predicate holding on a map and on the inserted value holds after
`mapSet`. -/
theorem forall_val_mapSet {K V : Type} [DecidableEq K] (P : V → Prop)
    {m : List (K × V)} (k : K) {v : V}
    (hm : ∀ p ∈ m, P p.2) (hv : P v) :
    ∀ p ∈ mapSet m k v, P p.2 := by
  induction m with
  | nil => simpa [mapSet] using hv
  | cons q rest ih =>
      intro p hp
      by_cases hq : q.1 = k
      · simp only [mapSet, if_pos hq] at hp
        rcases List.mem_cons.1 hp with rfl | hp'
        · exact hv
        · exact hm p (List.mem_cons_of_mem _ hp')
      · simp only [mapSet, if_neg hq] at hp
        rcases List.mem_cons.1 hp with rfl | hp'
        · exact hm p (List.mem_cons_self _ _)
        · exact ih (fun q' hq' => hm q' (List.mem_cons_of_mem _ hq')) p hp'

/-- A value predicate preserved by every fold step holds on the fold. -/
theorem forall_val_foldl {K V β : Type} [DecidableEq K] (P : V → Prop)
    (l : List β) (step : List (K × V) → β → List (K × V))
    (init : List (K × V))
    (hstep : ∀ m b, b ∈ l → (∀ p ∈ m, P p.2) → ∀ p ∈ step m b, P p.2)
    (hinit : ∀ p ∈ init, P p.2) :
    ∀ p ∈ l.foldl step init, P p.2 := by
  induction l generalizing init with
  | nil => exact hinit
  | cons b rest ih =>
      exact ih (step init b)
        (fun m b' hb' => hstep m b' (List.mem_cons_of_mem _ hb'))
        (hstep init b (List.mem_cons_self _ _) hinit)

/-- Every aggregate built by `channelAggregates` counts at least one
attributed customer, and its HIGH count never exceeds its customer count. -/
theorem channelAggregates_bounds (customerMetrics : List CustomerMetricsRecord)
    (attrib : List (String × String)) :
    ∀ p ∈ channelAggregates customerMetrics attrib,
      1 ≤ p.2.customers ∧ p.2.high ≤ p.2.customers := by
  unfold channelAggregates
  refine forall_val_foldl (fun e => 1 ≤ e.customers ∧ e.high ≤ e.customers)
    customerMetrics (channelAggStep attrib) [] ?_ (by simp)
  intro m metric _ hm p hp
  unfold channelAggStep at hp
  cases hattr : mapGet attrib metric.customerId with
  | none => rw [hattr] at hp; exact hm p hp
  | some channelId =>
      rw [hattr] at hp
      have hq : ((mapGet m channelId).getD ⟨0, 0, 0⟩).high ≤
          ((mapGet m channelId).getD ⟨0, 0, 0⟩).customers := by
        cases hg : mapGet m channelId with
        | none => simp
        | some e => exact (hm (channelId, e) (mapGet_mem hg)).2
      refine forall_val_mapSet
        (fun e => 1 ≤ e.customers ∧ e.high ≤ e.customers) channelId hm ?_ p hp
      constructor
      · simp
      · by_cases hseg : metric.ltvSegment = .HIGH
        · simpa [hseg] using Nat.succ_le_succ hq
        · simp only [hseg, if_false]
          exact Nat.le_succ_of_le hq

/-- Under nonnegative spend inputs, every resolved spend value is
nonnegative. -/
theorem resolveSpend_nonneg (config : ModelConfigRecord)
    (channels : List ChannelRecord)
    (spendDaily : List ChannelSpendDailyRecord) (now : ℚ)
    (hrows : ∀ r ∈ spendDaily, 0 ≤ r.spend)
    (hbudget : ∀ ch ∈ channels, ∀ b, ch.budgetSpend = some b → 0 ≤ b) :
    ∀ p ∈ resolveSpend config channels spendDaily now, 0 ≤ p.2 := by
  have hbase : ∀ p ∈ (if config.cacSpendSource = .daily ∧ spendDaily ≠ [] then
      spendDaily.foldl (dailySpendStep (spendCutoff config now)) []
    else budgetSpendMap channels), 0 ≤ p.2 := by
    by_cases hc : config.cacSpendSource = .daily ∧ spendDaily ≠ []
    · rw [if_pos hc]
      refine forall_val_foldl _ spendDaily _ [] ?_ (by simp)
      intro m row hrow hm p hp
      unfold dailySpendStep at hp
      by_cases hex : spendRowExcluded (spendCutoff config now) row
      · rw [if_pos hex] at hp; exact hm p hp
      · rw [if_neg hex] at hp
        refine forall_val_mapSet _ _ hm ?_ p hp
        have h0 : 0 ≤ (mapGet m row.channelId).getD 0 := by
          cases hg : mapGet m row.channelId with
          | none => simp
          | some v => exact hm (row.channelId, v) (mapGet_mem hg)
        exact add_nonneg h0 (hrows row hrow)
    · rw [if_neg hc]
      refine forall_val_foldl _ channels _ [] ?_ (by simp)
      intro m ch hch hm p hp
      cases hb : ch.budgetSpend with
      | none => rw [hb] at hp; exact hm p hp
      | some b =>
          rw [hb] at hp
          exact forall_val_mapSet _ _ hm (hbudget ch hch b hb) p hp
  unfold resolveSpend
  refine forall_val_foldl _ channels ensureChannelStep _ ?_ hbase
  intro m ch _ hm p hp
  unfold ensureChannelStep at hp
  by_cases hhas : mapHas m ch.channelId
  · rw [if_pos hhas] at hp; exact hm p hp
  · rw [if_neg hhas] at hp
    exact forall_val_mapSet _ _ hm le_rfl p hp

/-- C8 (counterexample): a single daily spend row of `-5` for a channel with
one attributed customer yields a persisted `cac` of `-5 < 0`, refuting the
unconditional claim `cac ≥ 0`. -/
theorem C8_counterexample :
    ((OLO.computeChannelMetrics [⟨"c1", 0, 0, none, none, .LOW⟩]
        [⟨"c1", none, some "ch1"⟩] [⟨"ch1", none⟩] [] [⟨"ch1", 5, -5⟩]
        defaultModelConfig 0).map ChannelMetricsRecord.cac) = [-5] ∧
    ¬(0 : ℚ) ≤ -5 := by
  constructor
  · norm_num [computeChannelMetrics, attributionMap, channelFieldMap,
      resolveSpend, defaultModelConfig, dailySpendStep, spendRowExcluded,
      spendCutoff, ensureChannelStep, channelAggregates, channelAggStep,
      channelMetricsRow, mapGet, mapSet, mapHas, List.foldl]
  · norm_num

/-- C8 (amended): every emitted `ChannelMetrics` row has at least one
attributed customer and `highLtvShare ∈ [0, 1]` unconditionally; its `cac`
equals `spend / acquiredCustomers` (the zero-denominator guard never fires,
so no NaN/Infinity can arise), and *provided all daily spend values and
channel budget figures are nonnegative*, `cac ≥ 0`. -/
theorem C8_channel_row_invariants (customerMetrics : List CustomerMetricsRecord)
    (customers : List CustomerRecord) (channels : List ChannelRecord)
    (acquiredVia : List AcquiredViaRecord)
    (spendDaily : List ChannelSpendDailyRecord) (config : ModelConfigRecord)
    (now : ℚ)
    (hrows : ∀ r ∈ spendDaily, 0 ≤ r.spend)
    (hbudget : ∀ ch ∈ channels, ∀ b, ch.budgetSpend = some b → 0 ≤ b) :
    ∀ row ∈ computeChannelMetrics customerMetrics customers channels
        acquiredVia spendDaily config now,
      1 ≤ row.acquiredCustomers ∧
      0 ≤ row.highLtvShare ∧ row.highLtvShare ≤ 1 ∧
      row.cac = row.spend / (row.acquiredCustomers : ℚ) ∧
      0 ≤ row.cac := by
  intro row hrow
  unfold computeChannelMetrics at hrow
  rcases List.mem_map.1 hrow with ⟨p, hp, hrow_eq⟩
  obtain ⟨hcust, hhigh⟩ :=
    channelAggregates_bounds customerMetrics
      (attributionMap config customers acquiredVia) p hp
  have hspend : 0 ≤ (mapGet (resolveSpend config channels spendDaily now)
      p.1).getD 0 := by
    cases hg : mapGet (resolveSpend config channels spendDaily now) p.1 with
    | none => simp
    | some v =>
        simpa using
          resolveSpend_nonneg config channels spendDaily now hrows hbudget
            (p.1, v) (mapGet_mem hg)
  have hc0 : p.2.customers ≠ 0 := by omega
  have hcQ : (0 : ℚ) < (p.2.customers : ℚ) := by
    exact_mod_cast Nat.pos_of_ne_zero hc0
  subst hrow_eq
  unfold channelMetricsRow
  refine ⟨by simpa using hcust, ?_, ?_, ?_, ?_⟩
  · simp only [if_pos hc0]
    positivity
  · simp only [if_pos hc0]
    rw [div_le_one hcQ]
    exact_mod_cast hhigh
  · simp only [if_pos hc0]
  · simp only [if_pos hc0]
    exact div_nonneg hspend hcQ.le

/-- Witness for C8: one HIGH customer attributed to `ch1` with a nonnegative
daily spend row. -/
theorem C8_channel_row_invariants_witness :
    (∀ r ∈ ([⟨"ch1", 5, 10⟩] : List ChannelSpendDailyRecord), 0 ≤ r.spend) ∧
    (∀ ch ∈ ([⟨"ch1", none⟩] : List ChannelRecord),
      ∀ b, ch.budgetSpend = some b → 0 ≤ b) ∧
    ∀ row ∈ computeChannelMetrics [⟨"c1", 40, 1, none, none, .HIGH⟩]
        [⟨"c1", none, some "ch1"⟩] [⟨"ch1", none⟩] [] [⟨"ch1", 5, 10⟩]
        defaultModelConfig 0,
      1 ≤ row.acquiredCustomers ∧
      0 ≤ row.highLtvShare ∧ row.highLtvShare ≤ 1 ∧
      row.cac = row.spend / (row.acquiredCustomers : ℚ) ∧
      0 ≤ row.cac := by
  refine ⟨by norm_num, by simp, ?_⟩
  exact C8_channel_row_invariants [⟨"c1", 40, 1, none, none, .HIGH⟩]
    [⟨"c1", none, some "ch1"⟩] [⟨"ch1", none⟩] [] [⟨"ch1", 5, 10⟩]
    defaultModelConfig 0 (by norm_num) (by simp)

/-! ## C2: quantile-based segment assignment -/

/-- A fold that `mapSet`s each pair's key to a function of the pair, over a
list with unique keys, tabulates that function. -/
theorem mapGet_foldl_tabulate {K A V : Type} [DecidableEq K]
    (l : List (K × A)) (g : K × A → V) (init : List (K × V)) (k : K) (a : A)
    (hmem : (k, a) ∈ l) (hnodup : (l.map Prod.fst).Nodup) :
    mapGet (l.foldl (fun m p => mapSet m p.1 (g p)) init) k =
      some (g (k, a)) := by
  induction l generalizing init with
  | nil => simp at hmem
  | cons p rest ih =>
      simp only [List.map_cons, List.nodup_cons] at hnodup
      rcases List.mem_cons.1 hmem with rfl | hmem'
      · rw [List.foldl_cons]
        rw [mapGet_foldl_congr rest _ _ k ?_]
        · exact mapGet_mapSet_self init k (g (k, a))
        · intro m b hb
          refine mapGet_mapSet_ne m _ ?_
          intro hbk
          exact hnodup.1 (hbk ▸ List.mem_map.2 ⟨b, hb, rfl⟩)
      · rw [List.foldl_cons]
        exact ih _ hmem' hnodup.2

/-- A fold that only `mapSet`s keys of the list leaves other keys absent. -/
theorem mapGet_foldl_tabulate_none {K A V : Type} [DecidableEq K]
    (l : List (K × A)) (g : K × A → V) (k : K)
    (hk : k ∉ l.map Prod.fst) :
    mapGet (l.foldl (fun m p => mapSet m p.1 (g p)) []) k = none := by
  rw [mapGet_foldl_congr l _ [] k]
  · rfl
  · intro m b hb
    refine mapGet_mapSet_ne m _ ?_
    intro hbk
    exact hk (hbk ▸ List.mem_map.2 ⟨b, hb, rfl⟩)

/-- The sorted LTV list has one value per totals entry. -/
theorem sortedLtvs_length (totals : List (String × CustomerAggregate)) :
    (sortedLtvs totals).length = totals.length := by
  rw [sortedLtvs, (List.mergeSort_perm _ _).length_eq, List.length_map]

/-- For a non-empty value list and a quantile in `[0, 1]`, the JavaScript
index expression lands in range and equals the spec's
`floor((n − 1) · q)`. -/
theorem jsIndex_quantile (l : List ℚ) (q : ℚ) (hl : l ≠ [])
    (hq0 : 0 ≤ q) (hq1 : q ≤ 1) :
    (jsIndex l (thresholdIdx l.length q)).getD 0 =
      l.getD (⌊((l.length : ℚ) - 1) * q⌋).toNat 0 := by
  have hn : 1 ≤ l.length := List.length_pos.2 hl
  have hn1 : (0 : ℚ) ≤ (l.length : ℚ) - 1 := by
    have : (1 : ℚ) ≤ (l.length : ℚ) := by exact_mod_cast hn
    linarith
  have hmax : max ((l.length : ℚ) - 1) 0 = (l.length : ℚ) - 1 :=
    max_eq_left hn1
  have hidx0 : 0 ≤ thresholdIdx l.length q := by
    rw [thresholdIdx, hmax]
    exact Int.floor_nonneg.2 (mul_nonneg hn1 hq0)
  have hidxlt : (thresholdIdx l.length q).toNat < l.length := by
    have hle : ((l.length : ℚ) - 1) * q ≤ (l.length : ℚ) - 1 := by
      calc ((l.length : ℚ) - 1) * q ≤ ((l.length : ℚ) - 1) * 1 :=
            mul_le_mul_of_nonneg_left hq1 hn1
        _ = (l.length : ℚ) - 1 := mul_one _
    have : thresholdIdx l.length q ≤ (l.length : ℤ) - 1 := by
      rw [thresholdIdx, hmax]
      calc ⌊((l.length : ℚ) - 1) * q⌋ ≤ ⌊(l.length : ℚ) - 1⌋ :=
            Int.floor_le_floor hle
        _ = (l.length : ℤ) - 1 := by
            rw [show ((l.length : ℚ) - 1) = (((l.length : ℤ) - 1 : ℤ) : ℚ) by
              push_cast; ring]
            exact Int.floor_intCast _
    omega
  rw [jsIndex, if_pos hidx0, List.getD_eq_getElem?_getD, thresholdIdx, hmax]

/-- C2 (confirmed): for a non-empty totals map with unique customer keys and
quantiles in `[0, 1]`, segment assignment is exactly the index-based rule:
with the LTV values sorted ascending and `n` their count, the high and mid
thresholds are the values at index `⌊(n − 1) · q⌋`, every customer with LTV
data is assigned HIGH iff `ltv ≥ highThreshold`, else MID iff
`ltv ≥ midThreshold`, else LOW, and customers outside the totals map get no
segment — a total, exhaustive, disjoint partition. -/
theorem C2_segment_assignment (totals : List (String × CustomerAggregate))
    (config : ModelConfigRecord) (hne : totals ≠ [])
    (hnodup : (totals.map Prod.fst).Nodup)
    (hh0 : 0 ≤ config.segmentHighQuantile)
    (hh1 : config.segmentHighQuantile ≤ 1)
    (hm0 : 0 ≤ config.segmentMidQuantile)
    (hm1 : config.segmentMidQuantile ≤ 1) :
    (∀ p ∈ totals,
      mapGet (assignSegments totals config) p.1 =
        some
          (if (sortedLtvs totals).getD
                (⌊((totals.length : ℚ) - 1) * config.segmentHighQuantile⌋).toNat
                0 ≤ p.2.ltv
           then .HIGH
           else if (sortedLtvs totals).getD
                (⌊((totals.length : ℚ) - 1) * config.segmentMidQuantile⌋).toNat
                0 ≤ p.2.ltv
           then .MID
           else .LOW)) ∧
    ∀ c : String, c ∉ totals.map Prod.fst →
      mapGet (assignSegments totals config) c = none := by
  have hlne : sortedLtvs totals ≠ [] := by
    intro h
    apply hne
    have := sortedLtvs_length totals
    rw [h] at this
    exact List.eq_nil_of_length_eq_zero this.symm
  have hlen0 : (sortedLtvs totals).length ≠ 0 := by
    intro h
    exact hlne (List.eq_nil_of_length_eq_zero h)
  have hhigh := jsIndex_quantile (sortedLtvs totals)
    config.segmentHighQuantile hlne hh0 hh1
  have hmid := jsIndex_quantile (sortedLtvs totals)
    config.segmentMidQuantile hlne hm0 hm1
  constructor
  · intro p hp
    rw [assignSegments]
    rw [mapGet_foldl_tabulate totals
      (fun q => segmentRule totals config q.2.ltv) [] p.1 p.2
      (by simpa using hp) hnodup]
    rw [segmentRule, if_neg hlen0, highThreshold, midThreshold, hhigh, hmid,
      sortedLtvs_length]
  · intro c hc
    rw [assignSegments]
    exact mapGet_foldl_tabulate_none totals
      (fun q => segmentRule totals config q.2.ltv) c hc

/-- Witness for C2: three customers with LTVs 10 < 20 < 30 under the default
0.9/0.7 quantiles; `n = 3`, both threshold indices are
`⌊2 · 0.9⌋ = ⌊2 · 0.7⌋ = 1`, so the threshold is 20 and the segments are
LOW, HIGH, HIGH. -/
theorem C2_segment_assignment_witness :
    (([(("a", ⟨10, 1, none, none⟩) : String × CustomerAggregate),
        ("b", ⟨20, 1, none, none⟩), ("c", ⟨30, 1, none, none⟩)] :
          List (String × CustomerAggregate)) ≠ [] ∧
      (0 : ℚ) ≤ defaultModelConfig.segmentHighQuantile ∧
      defaultModelConfig.segmentHighQuantile ≤ 1) ∧
    mapGet (assignSegments
        [("a", ⟨10, 1, none, none⟩), ("b", ⟨20, 1, none, none⟩),
          ("c", ⟨30, 1, none, none⟩)] defaultModelConfig) "a" =
      some .LOW ∧
    mapGet (assignSegments
        [("a", ⟨10, 1, none, none⟩), ("b", ⟨20, 1, none, none⟩),
          ("c", ⟨30, 1, none, none⟩)] defaultModelConfig) "b" =
      some .HIGH := by
  have h := C2_segment_assignment
    [("a", ⟨10, 1, none, none⟩), ("b", ⟨20, 1, none, none⟩),
      ("c", ⟨30, 1, none, none⟩)] defaultModelConfig
    (by simp) (by simp) (by norm_num [defaultModelConfig])
    (by norm_num [defaultModelConfig]) (by norm_num [defaultModelConfig])
    (by norm_num [defaultModelConfig])
  refine ⟨⟨by simp, by norm_num [defaultModelConfig],
    by norm_num [defaultModelConfig]⟩, ?_, ?_⟩
  · rw [h.1 ("a", ⟨10, 1, none, none⟩) (by simp)]
    norm_num [sortedLtvs, defaultModelConfig, List.mergeSort]
  · rw [h.1 ("b", ⟨20, 1, none, none⟩) (by simp [List.mem_cons])]
    norm_num [sortedLtvs, defaultModelConfig, List.mergeSort]

/-! ## C3: churn- and window-filtered LTV aggregation -/

theorem minDate?_eq_none_iff (l : List ℚ) : minDate? l = none ↔ l = [] := by
  cases l with
  | nil => simp [minDate?]
  | cons d rest =>
      simp only [minDate?]
      cases minDate? rest <;> simp

theorem minDate?_mem {l : List ℚ} {m : ℚ} (h : minDate? l = some m) :
    m ∈ l := by
  induction l generalizing m with
  | nil => simp [minDate?] at h
  | cons d rest ih =>
      simp only [minDate?] at h
      cases hr : minDate? rest with
      | none => rw [hr] at h; injection h with h'; simp [h']
      | some m' =>
          rw [hr] at h
          injection h with h'
          rcases min_cases d m' with ⟨hmin, _⟩ | ⟨hmin, _⟩
          · simp [← h', hmin]
          · right
            rw [← h', hmin]
            exact ih hr

/-- A lower-bound characterization: `minDate?` really is the minimum. -/
theorem minDate?_le {l : List ℚ} {m x : ℚ} (h : minDate? l = some m)
    (hx : x ∈ l) : m ≤ x := by
  induction l generalizing m with
  | nil => simp at hx
  | cons d rest ih =>
      simp only [minDate?] at h
      cases hr : minDate? rest with
      | none =>
          rw [hr] at h
          injection h with h'
          rcases List.mem_cons.1 hx with rfl | hx'
          · exact h'.ge
          · exact absurd ((minDate?_eq_none_iff rest).1 hr ▸ hx') (by simp)
      | some m' =>
          rw [hr] at h
          injection h with h'
          rcases List.mem_cons.1 hx with rfl | hx'
          · exact h' ▸ min_le_left _ _
          · exact le_trans (h' ▸ min_le_right _ _) (ih hr hx')

theorem minDate?_append_singleton (l : List ℚ) (d : ℚ) :
    minDate? (l ++ [d]) =
      some ((minDate? l).elim d (fun m => min m d)) := by
  induction l with
  | nil => simp [minDate?]
  | cons x rest ih =>
      simp only [List.cons_append, minDate?, List.append_eq]
      rw [ih]
      cases hr : minDate? rest with
      | none => simp [hr]
      | some m => simp [hr, min_assoc]

theorem maxDate?_append_singleton (l : List ℚ) (d : ℚ) :
    maxDate? (l ++ [d]) =
      some ((maxDate? l).elim d (fun m => max m d)) := by
  induction l with
  | nil => simp [maxDate?]
  | cons x rest ih =>
      simp only [List.cons_append, maxDate?, List.append_eq]
      rw [ih]
      cases hr : maxDate? rest with
      | none => simp [hr]
      | some m => simp [hr, max_assoc]

/-- Every entry of the initial totals map is the zero aggregate. -/
theorem initialTotals_getD (customers : List CustomerRecord) (c : String) :
    (mapGet (initialTotals customers) c).getD ⟨0, 0, none, none⟩ =
      ⟨0, 0, none, none⟩ := by
  have h := forall_val_foldl
    (fun v : CustomerAggregate => v = ⟨0, 0, none, none⟩) customers
    (fun m cust => mapSet m cust.customerId ⟨0, 0, none, none⟩) []
    (fun m b _ hm => forall_val_mapSet
      (fun v : CustomerAggregate => v = ⟨0, 0, none, none⟩)
      b.customerId hm rfl)
    (by simp)
  cases hg : mapGet (initialTotals customers) c with
  | none => rfl
  | some v =>
      rw [initialTotals] at hg
      simpa using h (c, v) (mapGet_mem hg)

/-- The transaction fold of `computeCustomerTotals`, characterized per
customer: starting from an accumulator whose entry for `c` aggregates the
already-included transactions `pre`, the fold extends the aggregate by
exactly the suffix's transactions for `c` that pass `txnIncluded`. -/
theorem totals_foldl_char (churn acq : List (String × ℚ)) (w : Option ℚ)
    (c : String) (ts : List TransactionRecord)
    (m : List (String × CustomerAggregate)) (pre : List TransactionRecord)
    (hm : (mapGet m c).getD ⟨0, 0, none, none⟩ = includedAggregate pre) :
    (mapGet (ts.foldl (totalsStep churn acq w) m) c).getD ⟨0, 0, none, none⟩ =
      includedAggregate (pre ++ ts.filter (fun t =>
        decide (t.customerId = c) && txnIncluded churn acq w t)) := by
  induction ts generalizing m pre with
  | nil => simpa using hm
  | cons t rest ih =>
      rw [List.foldl_cons, List.filter_cons]
      by_cases hinc : txnIncluded churn acq w t = true
      · by_cases hc : t.customerId = c
        · have hstep : totalsStep churn acq w m t =
              mapSet m c
                ⟨((mapGet m c).getD ⟨0, 0, none, none⟩).ltv + t.revenueAmount,
                 ((mapGet m c).getD ⟨0, 0, none, none⟩).txnCount + 1,
                 (match ((mapGet m c).getD ⟨0, 0, none, none⟩).first with
                   | none => some t.date
                   | some f => if t.date < f then some t.date else some f),
                 (match ((mapGet m c).getD ⟨0, 0, none, none⟩).last with
                   | none => some t.date
                   | some l => if t.date > l then some t.date else some l)⟩ := by
            rw [totalsStep, if_pos hinc, hc]
          have hnew : (mapGet (mapSet m c
              ⟨((mapGet m c).getD ⟨0, 0, none, none⟩).ltv + t.revenueAmount,
               ((mapGet m c).getD ⟨0, 0, none, none⟩).txnCount + 1,
               (match ((mapGet m c).getD ⟨0, 0, none, none⟩).first with
                 | none => some t.date
                 | some f => if t.date < f then some t.date else some f),
               (match ((mapGet m c).getD ⟨0, 0, none, none⟩).last with
                 | none => some t.date
                 | some l => if t.date > l then some t.date else some l)⟩)
              c).getD ⟨0, 0, none, none⟩ = includedAggregate (pre ++ [t]) := by
            rw [mapGet_mapSet_self, Option.getD_some, hm]
            simp only [includedAggregate, CustomerAggregate.mk.injEq]
            refine ⟨?_, ?_, ?_, ?_⟩
            · simp
            · simp
            · simp only [List.map_append, List.map_cons, List.map_nil]
              rw [minDate?_append_singleton]
              cases hmp : minDate? (pre.map TransactionRecord.date) with
              | none => simp
              | some f =>
                  simp only [Option.elim_some]
                  by_cases hlt : t.date < f
                  · rw [if_pos hlt]
                    rw [min_eq_right hlt.le]
                  · rw [if_neg hlt]
                    rw [min_eq_left (not_lt.1 hlt)]
            · simp only [List.map_append, List.map_cons, List.map_nil]
              rw [maxDate?_append_singleton]
              cases hmp : maxDate? (pre.map TransactionRecord.date) with
              | none => simp
              | some l =>
                  simp only [Option.elim_some]
                  by_cases hgt : t.date > l
                  · rw [if_pos hgt]
                    rw [max_eq_right hgt.le]
                  · rw [if_neg hgt]
                    rw [max_eq_left (not_lt.1 hgt)]
          rw [hstep]
          have hfilter : (decide (t.customerId = c) &&
              txnIncluded churn acq w t) = true := by
            rw [hinc, decide_eq_true hc]
            rfl
          rw [hfilter, if_pos rfl]
          rw [show pre ++ t :: List.filter (fun t =>
              decide (t.customerId = c) && txnIncluded churn acq w t) rest =
            (pre ++ [t]) ++ List.filter (fun t =>
              decide (t.customerId = c) && txnIncluded churn acq w t) rest by
            simp]
          exact ih _ (pre ++ [t]) hnew
        · have hfilter : (decide (t.customerId = c) &&
              txnIncluded churn acq w t) = false := by
            rw [decide_eq_false hc]
            rfl
          rw [hfilter]
          simp only [Bool.false_eq_true, if_false]
          have hstep : (mapGet (totalsStep churn acq w m t) c).getD
              ⟨0, 0, none, none⟩ =
              (mapGet m c).getD ⟨0, 0, none, none⟩ := by
            rw [totalsStep, if_pos hinc]
            rw [mapGet_mapSet_ne m _ hc]
          exact ih _ pre (hstep.trans hm)
      · have hstep : totalsStep churn acq w m t = m := by
          rw [totalsStep, if_neg hinc]
        have hfilter : (decide (t.customerId = c) &&
            txnIncluded churn acq w t) = false := by
          rw [Bool.and_eq_false_iff]
          right
          exact Bool.not_eq_true _ ▸ (by simpa using hinc)
        rw [hstep, hfilter]
        simp only [Bool.false_eq_true, if_false]
        exact ih _ pre hm

/-- The churn fold, characterized per customer when no qualifying event sits
exactly at the epoch: the entry is the running minimum of the qualifying
event dates. -/
theorem churn_foldl_min (config : ModelConfigRecord) (c : String)
    (events : List EventRecord) (m : List (String × ℚ)) (pre : List ℚ)
    (hpre0 : ∀ x ∈ pre, x ≠ 0)
    (hz : ∀ e ∈ events, e.customerId = c →
      e.type ∈ config.churnEventTypes → e.date ≠ 0)
    (hm : mapGet m c = minDate? pre) :
    mapGet (events.foldl (churnStep config) m) c =
      minDate? (pre ++ (events.filter (fun e =>
        decide (e.customerId = c) &&
        decide (e.type ∈ config.churnEventTypes))).map EventRecord.date) := by
  induction events generalizing m pre with
  | nil => simpa using hm
  | cons e rest ih =>
      rw [List.foldl_cons, List.filter_cons]
      by_cases hcid : e.customerId = c
      · by_cases hty : e.type ∈ config.churnEventTypes
        · subst hcid
          have hd : e.date ≠ 0 :=
            hz e (List.mem_cons_self _ _) rfl hty
          have hfilter : (decide (e.customerId = e.customerId) &&
              decide (e.type ∈ config.churnEventTypes)) = true := by
            rw [decide_eq_true rfl, decide_eq_true hty]
            rfl
          rw [hfilter, if_pos rfl, List.map_cons]
          rw [show pre ++ e.date :: (rest.filter (fun e' =>
              decide (e'.customerId = e.customerId) &&
              decide (e'.type ∈ config.churnEventTypes))).map EventRecord.date =
            (pre ++ [e.date]) ++ (rest.filter (fun e' =>
              decide (e'.customerId = e.customerId) &&
              decide (e'.type ∈ config.churnEventTypes))).map EventRecord.date by
            simp]
          have hpre1 : ∀ x ∈ pre ++ [e.date], x ≠ 0 := by
            intro x hx
            rcases List.mem_append.1 hx with hx' | hx'
            · exact hpre0 x hx'
            · rw [List.mem_singleton.1 hx']
              exact hd
          have hz' : ∀ e' ∈ rest, e'.customerId = e.customerId →
              e'.type ∈ config.churnEventTypes → e'.date ≠ 0 :=
            fun e' he' => hz e' (List.mem_cons_of_mem _ he')
          cases hmp : minDate? pre with
          | none =>
              have hpre : pre = [] := (minDate?_eq_none_iff pre).1 hmp
              have hstep : churnStep config m e =
                  mapSet m e.customerId e.date := by
                rw [churnStep, if_pos hty, hm, hmp]
              rw [hstep]
              refine ih _ (pre ++ [e.date]) hpre1 hz' ?_
              rw [mapGet_mapSet_self, hpre]
              simp [minDate?]
          | some cur =>
              have hcur0 : cur ≠ 0 := hpre0 cur (minDate?_mem hmp)
              by_cases hlt : e.date < cur
              · have hstep : churnStep config m e =
                    mapSet m e.customerId e.date := by
                  rw [churnStep, if_pos hty, hm, hmp]
                  show (if cur = 0 ∨ e.date < cur then
                      mapSet m e.customerId e.date else m) = _
                  rw [if_pos (Or.inr hlt)]
                rw [hstep]
                refine ih _ (pre ++ [e.date]) hpre1 hz' ?_
                rw [mapGet_mapSet_self, minDate?_append_singleton, hmp]
                simp [min_eq_right hlt.le]
              · have hstep : churnStep config m e = m := by
                  rw [churnStep, if_pos hty, hm, hmp]
                  show (if cur = 0 ∨ e.date < cur then
                      mapSet m e.customerId e.date else m) = _
                  rw [if_neg (by
                    rintro (h0 | hlt')
                    · exact hcur0 h0
                    · exact hlt hlt')]
                rw [hstep]
                refine ih _ (pre ++ [e.date]) hpre1 hz' ?_
                rw [hm, minDate?_append_singleton, hmp]
                simp [min_eq_left (not_lt.1 hlt)]
        · have hfilter : (decide (e.customerId = c) &&
              decide (e.type ∈ config.churnEventTypes)) = false := by
            rw [decide_eq_false hty]
            simp
          have hstep : churnStep config m e = m := by
            rw [churnStep, if_neg hty]
          rw [hfilter, hstep]
          simp only [Bool.false_eq_true, if_false]
          exact ih _ pre hpre0
            (fun e' he' => hz e' (List.mem_cons_of_mem _ he')) hm
      · have hfilter : (decide (e.customerId = c) &&
            decide (e.type ∈ config.churnEventTypes)) = false := by
          rw [decide_eq_false hcid]
          simp
        have hstep : mapGet (churnStep config m e) c = mapGet m c := by
          rw [churnStep]
          by_cases hty : e.type ∈ config.churnEventTypes
          · rw [if_pos hty]
            cases hg : mapGet m e.customerId with
            | none =>
                show mapGet (mapSet m e.customerId e.date) c = mapGet m c
                exact mapGet_mapSet_ne m _ hcid
            | some cur =>
                show mapGet (if cur = 0 ∨ e.date < cur then
                    mapSet m e.customerId e.date else m) c = mapGet m c
                by_cases hcond : cur = 0 ∨ e.date < cur
                · rw [if_pos hcond]
                  exact mapGet_mapSet_ne m _ hcid
                · rw [if_neg hcond]
          · rw [if_neg hty]
        rw [hfilter]
        simp only [Bool.false_eq_true, if_false]
        exact ih _ pre hpre0
          (fun e' he' => hz e' (List.mem_cons_of_mem _ he'))
          (hstep.trans hm)

/-- The transaction-inclusion test of `computeCustomerTotals`, spelled out:
a transaction is included iff it survives both the churn test and the
window test, each with its JavaScript-falsiness escape for a value of `0`. -/
theorem txnIncluded_iff (churn acq : List (String × ℚ)) (w : Option ℚ)
    (t : TransactionRecord) :
    txnIncluded churn acq w t = true ↔
      ((∀ ct, mapGet churn t.customerId = some ct → ct ≠ 0 → t.date ≤ ct) ∧
       (∀ wv acqTs, w = some wv → mapGet acq t.customerId = some acqTs →
          wv ≠ 0 → acqTs ≠ 0 → t.date ≤ acqTs + wv)) := by
  unfold txnIncluded
  rw [Bool.and_eq_true]
  cases hct : mapGet churn t.customerId <;>
    cases hw : w <;>
      cases hacq : mapGet acq t.customerId <;>
        simp [not_and, not_lt, gt_iff_lt] <;>
          tauto

/-- C3 (counterexample): a churn event dated exactly at the epoch
(`getTime() = 0`) is falsy in the guard `if (churnTs && txnTs > churnTs)`,
so a transaction dated *after* the churn timestamp is still included: the
customer's LTV is 5, where the claim as stated requires 0. -/
theorem C3_counterexample :
    ((mapGet (OLO.computeCustomerTotals [⟨"c1", none, none⟩]
        [⟨"t1", "c1", 5, 10⟩]
        (OLO.buildChurnMap [⟨"e1", "c1", "churn", 0⟩]
          { defaultModelConfig with churnEventTypes := ["churn"] })
        { defaultModelConfig with churnEventTypes := ["churn"] })
      "c1").getD ⟨0, 0, none, none⟩).ltv = 5 ∧
    (5 : ℚ) ≠ 0 ∧
    mapGet (OLO.buildChurnMap [⟨"e1", "c1", "churn", 0⟩]
        { defaultModelConfig with churnEventTypes := ["churn"] }) "c1" =
      some 0 ∧
    (10 : ℚ) > 0 := by
  refine ⟨?_, by norm_num, by rfl, by norm_num⟩
  norm_num [computeCustomerTotals, initialTotals, totalsStep, txnIncluded,
    buildChurnMap, churnStep, acquisitionLookup, windowMs, mapGet, mapSet,
    defaultModelConfig, List.foldl]

/-- C3 (amended): for every customer, provided none of that customer's
qualifying churn events is dated exactly at the epoch, the churn timestamp
used is the minimum event date among the customer's events whose type is in
`churnEventTypes`; a transaction passes the filters iff (1) the customer has
no churn timestamp, or the churn timestamp is `0` (epoch, treated as absent
by JavaScript truthiness), or the transaction date is ≤ the churn timestamp,
and (2) `ltvWindowDays` is null or `0`, or the customer has no recorded
acquisition date or it is exactly the epoch, or the transaction date is ≤
acquisitionDate + window; and the customer's aggregate is exactly the sum of
revenue, count, and min/max date over its included transactions. -/
theorem C3_churn_window_inclusion (customers : List CustomerRecord)
    (transactions : List TransactionRecord) (events : List EventRecord)
    (config : ModelConfigRecord) (c : String)
    (hz : ∀ e ∈ events, e.customerId = c →
      e.type ∈ config.churnEventTypes → e.date ≠ 0) :
    mapGet (buildChurnMap events config) c =
      minDate? ((events.filter (fun e =>
        decide (e.customerId = c) &&
        decide (e.type ∈ config.churnEventTypes))).map EventRecord.date) ∧
    (∀ t : TransactionRecord,
      txnIncluded (buildChurnMap events config) (acquisitionLookup customers)
          (windowMs config) t = true ↔
        ((∀ ct, mapGet (buildChurnMap events config) t.customerId = some ct →
            ct ≠ 0 → t.date ≤ ct) ∧
         (∀ wv acqTs, windowMs config = some wv →
            mapGet (acquisitionLookup customers) t.customerId = some acqTs →
            wv ≠ 0 → acqTs ≠ 0 → t.date ≤ acqTs + wv))) ∧
    (mapGet (computeCustomerTotals customers transactions
        (buildChurnMap events config) config) c).getD ⟨0, 0, none, none⟩ =
      includedAggregate (transactions.filter (fun t =>
        decide (t.customerId = c) &&
        txnIncluded (buildChurnMap events config) (acquisitionLookup customers)
          (windowMs config) t)) := by
  refine ⟨?_, ?_, ?_⟩
  · rw [buildChurnMap]
    simpa using churn_foldl_min config c events [] [] (by simp) hz rfl
  · intro t
    exact txnIncluded_iff _ _ _ t
  · rw [computeCustomerTotals]
    simpa using totals_foldl_char (buildChurnMap events config)
      (acquisitionLookup customers) (windowMs config) c transactions
      (initialTotals customers) [] (by
        rw [initialTotals_getD]
        rfl)

/-- Witness for C3: two churn events (dates 5000 and 3000—the minimum wins),
an acquisition at 1000 and no window; the transaction at 2000 is included,
the one at 4000 (after churn at 3000) is not. -/
theorem C3_churn_window_inclusion_witness :
    (∀ e ∈ ([⟨"e1", "c1", "churn", 5000⟩, ⟨"e2", "c1", "churn", 3000⟩] :
        List EventRecord), e.customerId = "c1" →
      e.type ∈ ({ defaultModelConfig with
        churnEventTypes := ["churn"] } : ModelConfigRecord).churnEventTypes →
      e.date ≠ 0) ∧
    mapGet (buildChurnMap
        [⟨"e1", "c1", "churn", 5000⟩, ⟨"e2", "c1", "churn", 3000⟩]
        { defaultModelConfig with churnEventTypes := ["churn"] }) "c1" =
      minDate? ((([⟨"e1", "c1", "churn", 5000⟩, ⟨"e2", "c1", "churn", 3000⟩] :
        List EventRecord).filter (fun e =>
          decide (e.customerId = "c1") &&
          decide (e.type ∈ ({ defaultModelConfig with
            churnEventTypes := ["churn"] } :
              ModelConfigRecord).churnEventTypes))).map EventRecord.date) := by
  constructor
  · intro e he h1 h2
    rcases List.mem_cons.1 he with rfl | he'
    · norm_num
    · rcases List.mem_cons.1 he' with rfl | he''
      · norm_num
      · simp at he''
  · exact (C3_churn_window_inclusion [⟨"c1", some 1000, none⟩] []
      [⟨"e1", "c1", "churn", 5000⟩, ⟨"e2", "c1", "churn", 3000⟩]
      { defaultModelConfig with churnEventTypes := ["churn"] } "c1"
      (by
        intro e he h1 h2
        rcases List.mem_cons.1 he with rfl | he'
        · norm_num
        · rcases List.mem_cons.1 he' with rfl | he''
          · norm_num
          · simp at he'')).1

/-! ## C10: phantom customers from unknown transaction ids -/

/-- On the success path the pipeline's derived tables and audit entry are
exactly the compute functions applied to the snapshot. -/
theorem runComputePipeline_ok_tables (snap : Snapshot) (st : DbState)
    (jobId : String) (now : ℚ) :
    (runComputePipeline snap st jobId now none).1.customerMetrics =
      buildCustomerMetrics
        (computeCustomerTotals snap.customers snap.transactions
          (buildChurnMap snap.events (st.modelConfig.getD defaultModelConfig))
          (st.modelConfig.getD defaultModelConfig))
        (assignSegments
          (computeCustomerTotals snap.customers snap.transactions
            (buildChurnMap snap.events (st.modelConfig.getD defaultModelConfig))
            (st.modelConfig.getD defaultModelConfig))
          (st.modelConfig.getD defaultModelConfig)) ∧
    (runComputePipeline snap st jobId now none).1.segmentMetrics =
      summarizeSegments
        (runComputePipeline snap st jobId now none).1.customerMetrics ∧
    (runComputePipeline snap st jobId now none).1.auditLog =
      st.auditLog ++
        [⟨"RECOMPUTE",
          (runComputePipeline snap st jobId now none).1.customerMetrics.length,
          (runComputePipeline snap st jobId now none).1.channelMetrics.length⟩] :=
  ⟨rfl, rfl, rfl⟩

/-- The per-segment counter fold of `summarizeSegments` counts every metric
row exactly once across the three segment keys. -/
theorem summarize_fold_count (cm : List CustomerMetricsRecord) :
    ∀ m : List (SegmentKey × (ℕ × ℚ)),
      ((mapGet (cm.foldl (fun m metric =>
          let entry := (mapGet m metric.ltvSegment).getD (0, 0)
          mapSet m metric.ltvSegment (entry.1 + 1, entry.2 + metric.ltv)) m)
        SegmentKey.HIGH).getD (0, 0)).1 +
      ((mapGet (cm.foldl (fun m metric =>
          let entry := (mapGet m metric.ltvSegment).getD (0, 0)
          mapSet m metric.ltvSegment (entry.1 + 1, entry.2 + metric.ltv)) m)
        SegmentKey.MID).getD (0, 0)).1 +
      ((mapGet (cm.foldl (fun m metric =>
          let entry := (mapGet m metric.ltvSegment).getD (0, 0)
          mapSet m metric.ltvSegment (entry.1 + 1, entry.2 + metric.ltv)) m)
        SegmentKey.LOW).getD (0, 0)).1 =
      ((mapGet m SegmentKey.HIGH).getD (0, 0)).1 +
      ((mapGet m SegmentKey.MID).getD (0, 0)).1 +
      ((mapGet m SegmentKey.LOW).getD (0, 0)).1 + cm.length := by
  induction cm with
  | nil => intro m; simp
  | cons metric rest ih =>
      intro m
      simp only [List.foldl_cons]
      rw [ih]
      have hstep : ∀ key : SegmentKey,
          ((mapGet (mapSet m metric.ltvSegment
            (((mapGet m metric.ltvSegment).getD (0, 0)).1 + 1,
             ((mapGet m metric.ltvSegment).getD (0, 0)).2 + metric.ltv))
            key).getD (0, 0)).1 =
          ((mapGet m key).getD (0, 0)).1 +
            (if metric.ltvSegment = key then 1 else 0) := by
        intro key
        by_cases hk : metric.ltvSegment = key
        · subst hk
          rw [mapGet_mapSet_self, if_pos rfl]
          rfl
        · rw [mapGet_mapSet_ne m _ hk, if_neg hk]
          simp
      rw [hstep, hstep, hstep]
      cases hseg : metric.ltvSegment <;> simp [hseg] <;> omega

/-- Σ `SegmentMetrics.customerCount` equals the number of customer-metrics
rows: every row (phantom or not) is counted in the segment totals. -/
theorem summarizeSegments_count_sum (cm : List CustomerMetricsRecord) :
    ((summarizeSegments cm).map SegmentMetricsRecord.customerCount).sum =
      cm.length := by
  have h := summarize_fold_count cm []
  simp only [mapGet, Option.getD_none] at h
  simp only [summarizeSegments, List.map_cons, List.map_nil, List.sum_cons,
    List.sum_nil]
  omega

/-- C10 (confirmed): a transaction that passes the churn and window filters
but whose customerId is not in the Customer table still yields a
`CustomerMetrics` row for that id (with the included revenue summed into its
`ltv` and a segment assigned — the `ltvSegment` field is always one of
HIGH/MID/LOW), the phantom row is counted in the segment totals
(Σ customerCount = number of rows), and the audit entry's customer count is
the row count, phantom included. -/
theorem C10_phantom_customer (snap : Snapshot) (st : DbState)
    (jobId : String) (now : ℚ) (t : TransactionRecord)
    (ht : t ∈ snap.transactions)
    (hmiss : t.customerId ∉ snap.customers.map CustomerRecord.customerId)
    (hinc : txnIncluded
      (buildChurnMap snap.events (st.modelConfig.getD defaultModelConfig))
      (acquisitionLookup snap.customers)
      (windowMs (st.modelConfig.getD defaultModelConfig)) t = true) :
    (∃ row ∈ (runComputePipeline snap st jobId now none).1.customerMetrics,
      row.customerId = t.customerId ∧
      row.ltv = ((snap.transactions.filter (fun t' =>
        decide (t'.customerId = t.customerId) &&
        txnIncluded
          (buildChurnMap snap.events (st.modelConfig.getD defaultModelConfig))
          (acquisitionLookup snap.customers)
          (windowMs (st.modelConfig.getD defaultModelConfig)) t')).map
        TransactionRecord.revenueAmount).sum) ∧
    (((runComputePipeline snap st jobId now none).1.segmentMetrics).map
      SegmentMetricsRecord.customerCount).sum =
      ((runComputePipeline snap st jobId now none).1.customerMetrics).length ∧
    (runComputePipeline snap st jobId now none).1.auditLog =
      st.auditLog ++
        [⟨"RECOMPUTE",
          ((runComputePipeline snap st jobId now none).1.customerMetrics).length,
          ((runComputePipeline snap st jobId now none).1.channelMetrics).length⟩] := by
  obtain ⟨hcm, hsm, haudit⟩ := runComputePipeline_ok_tables snap st jobId now
  refine ⟨?_, ?_, haudit⟩
  · set config := st.modelConfig.getD defaultModelConfig with hconfig
    set churn := buildChurnMap snap.events config with hchurn
    set included := snap.transactions.filter (fun t' =>
      decide (t'.customerId = t.customerId) &&
      txnIncluded churn (acquisitionLookup snap.customers)
        (windowMs config) t') with hincluded
    have htotals : (mapGet (computeCustomerTotals snap.customers
        snap.transactions churn config) t.customerId).getD ⟨0, 0, none, none⟩ =
        includedAggregate included := by
      rw [computeCustomerTotals]
      simpa [hincluded] using totals_foldl_char churn
        (acquisitionLookup snap.customers) (windowMs config) t.customerId
        snap.transactions (initialTotals snap.customers) []
        (by rw [initialTotals_getD]; rfl)
    have htmem : t ∈ included := by
      rw [hincluded]
      refine List.mem_filter.2 ⟨ht, ?_⟩
      rw [hinc, decide_eq_true rfl]
      rfl
    have hlen : 1 ≤ included.length :=
      List.length_pos.2 (List.ne_nil_of_mem htmem)
    obtain ⟨agg, hagg⟩ : ∃ agg, mapGet (computeCustomerTotals snap.customers
        snap.transactions churn config) t.customerId = some agg := by
      cases hg : mapGet (computeCustomerTotals snap.customers
          snap.transactions churn config) t.customerId with
      | none =>
          exfalso
          rw [hg] at htotals
          have := congrArg CustomerAggregate.txnCount htotals
          simp only [Option.getD_none, includedAggregate] at this
          omega
      | some agg => exact ⟨agg, rfl⟩
    have haggval : agg = includedAggregate included := by
      rw [hagg] at htotals
      simpa using htotals
    refine ⟨⟨t.customerId, agg.ltv, agg.txnCount, agg.first, agg.last,
      (mapGet (assignSegments (computeCustomerTotals snap.customers
        snap.transactions churn config) config) t.customerId).getD .LOW⟩,
      ?_, rfl, ?_⟩
    · rw [hcm]
      exact List.mem_map.2 ⟨(t.customerId, agg), mapGet_mem hagg, rfl⟩
    · rw [haggval]
      rfl
  · rw [hsm]
    exact summarizeSegments_count_sum _

/-- Witness for C10: a single transaction for unknown customer `c1` with an
empty Customer table and default config. -/
theorem C10_phantom_customer_witness :
    ((⟨"t1", "c1", 5, 10⟩ : TransactionRecord) ∈
        (⟨[], [⟨"t1", "c1", 5, 10⟩], [], [], [], []⟩ : Snapshot).transactions ∧
      ("c1" : String) ∉ (([] : List CustomerRecord)).map
        CustomerRecord.customerId ∧
      txnIncluded (buildChurnMap [] defaultModelConfig)
        (acquisitionLookup []) (windowMs defaultModelConfig)
        ⟨"t1", "c1", 5, 10⟩ = true) ∧
    ∃ row ∈ (runComputePipeline ⟨[], [⟨"t1", "c1", 5, 10⟩], [], [], [], []⟩
        ⟨[], [], [], [], [], none⟩ "job-10" 0 none).1.customerMetrics,
      row.customerId = "c1" := by
  refine ⟨⟨by simp, by simp, rfl⟩, ?_⟩
  obtain ⟨⟨row, hrow, hid, _⟩, _, _⟩ := C10_phantom_customer
    ⟨[], [⟨"t1", "c1", 5, 10⟩], [], [], [], []⟩
    ⟨[], [], [], [], [], none⟩ "job-10" 0 ⟨"t1", "c1", 5, 10⟩
    (by simp) (by simp) rfl
  exact ⟨row, hrow, hid⟩

/-! ## C6: shortfalls in the decrease pass -/

/-- Tiny unfolding equations for the loop. -/
theorem adjLoop_nil (d : Direction)
    (rb : RecommendationInput → ℚ → ℚ → String) (st : AdjState) :
    adjLoop d rb st [] = st := rfl

theorem adjLoop_cons (d : Direction)
    (rb : RecommendationInput → ℚ → ℚ → String) (st : AdjState)
    (c : RecommendationInput) (rest : List RecommendationInput) :
    adjLoop d rb st (c :: rest) =
      adjLoop d rb (adjBody d rb st c rest.length) rest := rfl

/-- Unfolding equation for a decrease-direction `adjBody` iteration that
finds its item and has a positive reducible amount. -/
theorem adjBody_decrease_eq (rb : RecommendationInput → ℚ → ℚ → String)
    (items : List ActionPlanItem) (rem app : ℚ) (touched : List String)
    (c : RecommendationInput) (n i : ℕ)
    (cid : String) (cur prop dlt : ℚ) (rat : String)
    (h0 : ¬ rem ≤ 0)
    (hi : lastIdxOf items c.channelId = some i)
    (hit : items[i]? = some ⟨cid, cur, prop, dlt, rat⟩)
    (hred : ¬ min (rem / ((n + 1 : ℕ) : ℚ)) prop ≤ 0) :
    adjBody .decrease rb ⟨items, rem, app, touched⟩ c n =
      ⟨items.set i
        ⟨cid, cur,
          max 0 (prop - min (rem / ((n + 1 : ℕ) : ℚ)) prop),
          max 0 (prop - min (rem / ((n + 1 : ℕ) : ℚ)) prop) - cur,
          rb c (min (rem / ((n + 1 : ℕ) : ℚ)) prop) (ratioOf c)⟩,
        rem - min (rem / ((n + 1 : ℕ) : ℚ)) prop,
        app + min (rem / ((n + 1 : ℕ) : ℚ)) prop,
        touched ++ [c.channelId]⟩ := by
  simp only [adjBody, if_neg h0, hi, hit, if_neg hred]

/-- Unfolding equation for an increase-direction `adjBody` iteration that
finds its item. -/
theorem adjBody_increase_eq (rb : RecommendationInput → ℚ → ℚ → String)
    (items : List ActionPlanItem) (rem app : ℚ) (touched : List String)
    (c : RecommendationInput) (n i : ℕ)
    (cid : String) (cur prop dlt : ℚ) (rat : String)
    (h0 : ¬ rem ≤ 0)
    (hi : lastIdxOf items c.channelId = some i)
    (hit : items[i]? = some ⟨cid, cur, prop, dlt, rat⟩) :
    adjBody .increase rb ⟨items, rem, app, touched⟩ c n =
      ⟨items.set i
        ⟨cid, cur,
          cur + rem / ((n + 1 : ℕ) : ℚ),
          cur + rem / ((n + 1 : ℕ) : ℚ) - cur,
          rb c (rem / ((n + 1 : ℕ) : ℚ)) (ratioOf c)⟩,
        rem - rem / ((n + 1 : ℕ) : ℚ),
        app + rem / ((n + 1 : ℕ) : ℚ),
        touched ++ [c.channelId]⟩ := by
  simp only [adjBody, if_neg h0, hi, hit]

/-- A decrease-direction `adjBody` iteration whose reducible amount is not
positive leaves the state unchanged. -/
theorem adjBody_decrease_skip (rb : RecommendationInput → ℚ → ℚ → String)
    (items : List ActionPlanItem) (rem app : ℚ) (touched : List String)
    (c : RecommendationInput) (n i : ℕ)
    (cid : String) (cur prop dlt : ℚ) (rat : String)
    (h0 : ¬ rem ≤ 0)
    (hi : lastIdxOf items c.channelId = some i)
    (hit : items[i]? = some ⟨cid, cur, prop, dlt, rat⟩)
    (hred : min (rem / ((n + 1 : ℕ) : ℚ)) prop ≤ 0) :
    adjBody .decrease rb ⟨items, rem, app, touched⟩ c n =
      ⟨items, rem, app, touched⟩ := by
  simp only [adjBody, if_neg h0, hi, hit, if_pos hred]

theorem adjBody_of_remaining_nonpos (d : Direction)
    (rb : RecommendationInput → ℚ → ℚ → String) (st : AdjState)
    (c : RecommendationInput) (n : ℕ) (h : st.remaining ≤ 0) :
    adjBody d rb st c n = st := by
  simp only [adjBody, if_pos h]

theorem adjBody_of_lastIdx_none (d : Direction)
    (rb : RecommendationInput → ℚ → ℚ → String) (st : AdjState)
    (c : RecommendationInput) (n : ℕ) (h0 : ¬ st.remaining ≤ 0)
    (hi : lastIdxOf st.items c.channelId = none) :
    adjBody d rb st c n = st := by
  simp only [adjBody, if_neg h0, hi]

theorem adjBody_of_getElem_none (d : Direction)
    (rb : RecommendationInput → ℚ → ℚ → String) (st : AdjState)
    (c : RecommendationInput) (n i : ℕ) (h0 : ¬ st.remaining ≤ 0)
    (hi : lastIdxOf st.items c.channelId = some i)
    (hit : st.items[i]? = none) :
    adjBody d rb st c n = st := by
  simp only [adjBody, if_neg h0, hi, hit]

/-- C6 (counterexample): decrease pass over targets A (spend 10) and
B (spend 1000) with budget 60.  A's equal-split share is 30 but it can only
absorb 10; had the shortfall not been redistributed, B would absorb its
full-absorption share 30 and end at 970 — instead the code gives B a share
of 50 (the whole remaining budget) and it ends at 950. -/
theorem C6_counterexample :
    ((OLO.applyAdjustments
        [⟨"A", 10, 10, 0, "h"⟩, ⟨"B", 1000, 1000, 0, "h"⟩]
        [⟨"A", 1, 0, 10, 1, 0, 1⟩, ⟨"B", 1, 0, 1000, 1, 0, 1⟩]
        60 .decrease decreaseRationale []).items.map
      ActionPlanItem.proposedSpend) = [0, 950] ∧
    (950 : ℚ) ≠ 970 := by
  constructor
  · have hBA : ¬("B" : String) = "A" := by decide
    have hAB : ¬("A" : String) = "B" := by decide
    norm_num [applyAdjustments, adjLoop, adjBody, lastIdxOf, ratioOf,
      decreaseRationale, List.getElem?_cons, hBA, hAB]
    rw [if_neg (by simp)]
    rfl
  · norm_num

/-- C6 (amended): targets are processed in ranked order and each target's
share is the remaining budget divided by the number of remaining targets,
where the remaining budget is decremented only by the amount each target
actually absorbs.  A shortfall therefore *is* redistributed to the later
targets of the same pass: with two targets, budget `R > 0`, first target
spend `pA` with `0 < pA < R/2` (a genuine shortfall) and second target spend
`pB ≥ R − pA`, the second target's share is `R − pA` — strictly more than
the equal split `R/2` — the first ends at 0, the second at
`pB − (R − pA)`, and the whole budget `R` is absorbed. -/
theorem C6_decrease_shortfall_redistributed (idA idB : String)
    (cA cB : RecommendationInput) (pA pB R : ℚ)
    (rb : RecommendationInput → ℚ → ℚ → String)
    (hid : idA ≠ idB) (hA : cA.channelId = idA) (hB : cB.channelId = idB)
    (hR : 0 < R) (hpA0 : 0 < pA) (hpA : pA < R / 2) (hpB : R - pA ≤ pB) :
    (applyAdjustments [⟨idA, pA, pA, 0, "hold"⟩, ⟨idB, pB, pB, 0, "hold"⟩]
        [cA, cB] R .decrease rb []).applied = R ∧
    ((applyAdjustments [⟨idA, pA, pA, 0, "hold"⟩, ⟨idB, pB, pB, 0, "hold"⟩]
        [cA, cB] R .decrease rb []).items.map
      ActionPlanItem.proposedSpend) = [0, pB - (R - pA)] ∧
    R / 2 < R - pA := by
  have hRA : 0 < R - pA := by
    have hRhalf : R / 2 < R := by linarith
    linarith
  have hc2 : (((1 : ℕ) + 1 : ℕ) : ℚ) = 2 := by norm_num
  have hc1 : (((0 : ℕ) + 1 : ℕ) : ℚ) = 1 := by norm_num
  have hmin1 : min (R / (((1 : ℕ) + 1 : ℕ) : ℚ)) pA = pA := by
    rw [hc2]
    exact min_eq_right hpA.le
  have hw : ¬(([cA, cB] : List RecommendationInput) = [] ∨ R ≤ 0) := by
    push_neg
    exact ⟨by simp, hR⟩
  have hidx1 : lastIdxOf [⟨idA, pA, pA, 0, "hold"⟩, ⟨idB, pB, pB, 0, "hold"⟩]
      cA.channelId = some 0 := by
    rw [hA]
    simp [lastIdxOf, Ne.symm hid]
  have hb1 := adjBody_decrease_eq rb
    [⟨idA, pA, pA, 0, "hold"⟩, ⟨idB, pB, pB, 0, "hold"⟩] R 0 []
    cA 1 0 idA pA pA 0 "hold" hR.not_le hidx1 rfl
    (by
      rw [hmin1]
      exact not_le.2 hpA0)
  have hmin2 : min ((R - min (R / (((1 : ℕ) + 1 : ℕ) : ℚ)) pA) /
      (((0 : ℕ) + 1 : ℕ) : ℚ)) pB = R - pA := by
    rw [hmin1, hc1, div_one]
    exact min_eq_left hpB
  have hidx2 : lastIdxOf
      (([⟨idA, pA, pA, 0, "hold"⟩, ⟨idB, pB, pB, 0, "hold"⟩] :
        List ActionPlanItem).set 0
        ⟨idA, pA,
          max 0 (pA - min (R / (((1 : ℕ) + 1 : ℕ) : ℚ)) pA),
          max 0 (pA - min (R / (((1 : ℕ) + 1 : ℕ) : ℚ)) pA) - pA,
          rb cA (min (R / (((1 : ℕ) + 1 : ℕ) : ℚ)) pA) (ratioOf cA)⟩)
      cB.channelId = some 1 := by
    rw [hB]
    simp [lastIdxOf, hid]
  have hb2 := adjBody_decrease_eq rb
    (([⟨idA, pA, pA, 0, "hold"⟩, ⟨idB, pB, pB, 0, "hold"⟩] :
        List ActionPlanItem).set 0
        ⟨idA, pA,
          max 0 (pA - min (R / (((1 : ℕ) + 1 : ℕ) : ℚ)) pA),
          max 0 (pA - min (R / (((1 : ℕ) + 1 : ℕ) : ℚ)) pA) - pA,
          rb cA (min (R / (((1 : ℕ) + 1 : ℕ) : ℚ)) pA) (ratioOf cA)⟩)
    (R - min (R / (((1 : ℕ) + 1 : ℕ) : ℚ)) pA)
    (0 + min (R / (((1 : ℕ) + 1 : ℕ) : ℚ)) pA)
    ([] ++ [cA.channelId])
    cB 0 1 idB pB pB 0 "hold"
    (by
      rw [hmin1]
      exact not_le.2 hRA)
    hidx2 rfl
    (by
      rw [hmin2]
      exact not_le.2 hRA)
  have hloop : applyAdjustments
      [⟨idA, pA, pA, 0, "hold"⟩, ⟨idB, pB, pB, 0, "hold"⟩]
      [cA, cB] R .decrease rb [] =
      adjBody .decrease rb
        (adjBody .decrease rb
          ⟨[⟨idA, pA, pA, 0, "hold"⟩, ⟨idB, pB, pB, 0, "hold"⟩],
            R, 0, []⟩ cA 1) cB 0 := by
    rw [applyAdjustments, if_neg hw]
    rfl
  rw [hloop, hb1, hb2]
  refine ⟨?_, ?_, by linarith⟩
  · show 0 + min (R / (((1 : ℕ) + 1 : ℕ) : ℚ)) pA +
      min ((R - min (R / (((1 : ℕ) + 1 : ℕ) : ℚ)) pA) /
        (((0 : ℕ) + 1 : ℕ) : ℚ)) pB = R
    rw [hmin2, hmin1]
    ring
  · show [max 0 (pA - min (R / (((1 : ℕ) + 1 : ℕ) : ℚ)) pA),
      max 0 (pB - min ((R - min (R / (((1 : ℕ) + 1 : ℕ) : ℚ)) pA) /
        (((0 : ℕ) + 1 : ℕ) : ℚ)) pB)] = [0, pB - (R - pA)]
    rw [hmin2, hmin1]
    have h1 : max 0 (pA - pA) = 0 := by simp
    have h2 : max 0 (pB - (R - pA)) = pB - (R - pA) :=
      max_eq_right (by linarith)
    rw [h1, h2]

/-- Witness for C6: A(10), B(1000), budget 60 — B's share is 50 > 30. -/
theorem C6_decrease_shortfall_redistributed_witness :
    (("A" : String) ≠ "B" ∧ (0 : ℚ) < 60 ∧ (10 : ℚ) < 60 / 2 ∧
      (60 : ℚ) - 10 ≤ 1000) ∧
    (OLO.applyAdjustments [⟨"A", 10, 10, 0, "hold"⟩, ⟨"B", 1000, 1000, 0, "hold"⟩]
        [⟨"A", 1, 0, 10, 1, 0, 1⟩, ⟨"B", 1, 0, 1000, 1, 0, 1⟩]
        60 .decrease decreaseRationale []).applied = 60 ∧
    ((OLO.applyAdjustments [⟨"A", 10, 10, 0, "hold"⟩, ⟨"B", 1000, 1000, 0, "hold"⟩]
        [⟨"A", 1, 0, 10, 1, 0, 1⟩, ⟨"B", 1, 0, 1000, 1, 0, 1⟩]
        60 .decrease decreaseRationale []).items.map
      ActionPlanItem.proposedSpend) = [0, 1000 - (60 - 10)] ∧
    (60 : ℚ) / 2 < 60 - 10 := by
  have h := C6_decrease_shortfall_redistributed "A" "B"
    ⟨"A", 1, 0, 10, 1, 0, 1⟩ ⟨"B", 1, 0, 1000, 1, 0, 1⟩ 10 1000 60
    decreaseRationale (by simp) rfl rfl (by norm_num) (by norm_num)
    (by norm_num) (by norm_num)
  exact ⟨⟨by simp, by norm_num, by norm_num, by norm_num⟩, h.1, h.2.1, h.2.2⟩

/-- Setting index `i` (which holds `a`) to `x` changes a mapped sum by
`f x - f a`. -/
theorem sum_map_set {α : Type} (l : List α) (i : ℕ) (x a : α) (f : α → ℚ)
    (h : l[i]? = some a) :
    ((l.set i x).map f).sum = (l.map f).sum - f a + f x := by
  induction l generalizing i with
  | nil => simp at h
  | cons y rest ih =>
      cases i with
      | zero =>
          simp only [List.getElem?_cons_zero, Option.some.injEq] at h
          subst h
          simp only [List.set_cons_zero, List.map_cons, List.sum_cons]
          ring
      | succ j =>
          simp only [List.getElem?_cons_succ] at h
          rw [List.set_cons_succ]
          simp only [List.map_cons, List.sum_cons, ih j h]
          ring

/-- Setting index `i` (which holds `a`) to `x` preserves a map under which
`x` and `a` agree. -/
theorem map_set_eq {α β : Type} (l : List α) (i : ℕ) (x a : α) (f : α → β)
    (h : l[i]? = some a) (hf : f x = f a) :
    (l.set i x).map f = l.map f := by
  induction l generalizing i with
  | nil => rfl
  | cons y rest ih =>
      cases i with
      | zero =>
          simp only [List.getElem?_cons_zero, Option.some.injEq] at h
          subst h
          simp [List.set_cons_zero, hf]
      | succ j =>
          simp only [List.getElem?_cons_succ] at h
          rw [List.set_cons_succ]
          simp [ih j h]

theorem mem_of_getElem_some {α : Type} {l : List α} {i : ℕ} {a : α}
    (h : l[i]? = some a) : a ∈ l := by
  obtain ⟨hlt, rfl⟩ := List.getElem?_eq_some_iff.1 h
  exact List.getElem_mem hlt

/-- The index found by `lastIdxOf` holds an item with the requested id. -/
theorem lastIdxOf_spec (id : String) (items : List ActionPlanItem) :
    ∀ (i : ℕ), lastIdxOf items id = some i →
      ∃ item, items[i]? = some item ∧ item.channelId = id := by
  induction items with
  | nil => intro i h; simp [lastIdxOf] at h
  | cons it rest ih =>
      intro i h
      rw [lastIdxOf] at h
      cases hr : lastIdxOf rest id with
      | some j =>
          rw [hr] at h
          injection h with h
          subst h
          obtain ⟨item, hit, hcid⟩ := ih j hr
          exact ⟨item, by simpa [List.getElem?_cons_succ] using hit, hcid⟩
      | none =>
          rw [hr] at h
          by_cases hc : it.channelId = id
          · rw [if_pos hc] at h
            injection h with h
            subst h
            exact ⟨it, by simp, hc⟩
          · rw [if_neg hc] at h
            cases h

/-- `lastIdxOf` depends only on the `channelId` column. -/
theorem lastIdxOf_congr :
    ∀ (items₁ items₂ : List ActionPlanItem),
      items₁.map ActionPlanItem.channelId =
        items₂.map ActionPlanItem.channelId →
      ∀ id, lastIdxOf items₁ id = lastIdxOf items₂ id := by
  intro items₁
  induction items₁ with
  | nil =>
      intro items₂ h id
      cases items₂ with
      | nil => rfl
      | cons b l₂ => simp at h
  | cons a l₁ ih =>
      intro items₂ h id
      cases items₂ with
      | nil => simp at h
      | cons b l₂ =>
          simp only [List.map_cons, List.cons.injEq] at h
          rw [lastIdxOf, lastIdxOf, ih l₂ h.2 id, h.1]

/-- An id that occurs in the `channelId` column is found by `lastIdxOf`. -/
theorem lastIdxOf_isSome_of_mem (id : String) (items : List ActionPlanItem)
    (h : id ∈ items.map ActionPlanItem.channelId) :
    ∃ i, lastIdxOf items id = some i := by
  induction items with
  | nil => simp at h
  | cons it rest ih =>
      rw [lastIdxOf]
      cases hr : lastIdxOf rest id with
      | some j => exact ⟨j + 1, rfl⟩
      | none =>
          have hcid : it.channelId = id := by
            simp only [List.map_cons, List.mem_cons] at h
            rcases h with h | h
            · exact h.symm
            · obtain ⟨j, hj⟩ := ih h
              rw [hj] at hr
              cases hr
          rw [if_pos hcid]
          exact ⟨0, rfl⟩

theorem uniqueTargetsGo_mem (l : List RecommendationInput) :
    ∀ (seen : List String) (t : RecommendationInput),
      t ∈ uniqueTargetsGo seen l → t ∈ l := by
  induction l with
  | nil => intro seen t ht; simp [uniqueTargetsGo] at ht
  | cons a rest ih =>
      intro seen t ht
      rw [uniqueTargetsGo] at ht
      by_cases hc : a.channelId ∈ seen
      · rw [if_pos hc] at ht
        exact List.mem_cons_of_mem a (ih seen t ht)
      · rw [if_neg hc] at ht
        rcases List.mem_cons.1 ht with rfl | ht'
        · exact List.mem_cons_self _ _
        · exact List.mem_cons_of_mem _ (ih _ t ht')

/-- `uniqueTargets` keeps one occurrence per `channelId` and never an id
from the `seen` accumulator. -/
theorem uniqueTargetsGo_nodup (l : List RecommendationInput) :
    ∀ (seen : List String),
      ((uniqueTargetsGo seen l).map RecommendationInput.channelId).Nodup ∧
      ∀ x ∈ (uniqueTargetsGo seen l).map RecommendationInput.channelId,
        x ∉ seen := by
  induction l with
  | nil => intro seen; simp [uniqueTargetsGo]
  | cons a rest ih =>
      intro seen
      rw [uniqueTargetsGo]
      by_cases hc : a.channelId ∈ seen
      · rw [if_pos hc]
        exact ih seen
      · rw [if_neg hc]
        obtain ⟨hnd, hnotin⟩ := ih (a.channelId :: seen)
        constructor
        · rw [List.map_cons, List.nodup_cons]
          refine ⟨?_, hnd⟩
          intro hmem
          exact hnotin _ hmem (List.mem_cons_self _ _)
        · intro x hx
          rw [List.map_cons, List.mem_cons] at hx
          rcases hx with rfl | hx'
          · exact hc
          · intro hxs
            exact hnotin x hx' (List.mem_cons_of_mem _ hxs)

theorem uniqueTargets_nodup (targets : List RecommendationInput) :
    ((uniqueTargets targets).map RecommendationInput.channelId).Nodup :=
  (uniqueTargetsGo_nodup targets []).1

theorem uniqueTargets_mem (targets : List RecommendationInput)
    (t : RecommendationInput) (h : t ∈ uniqueTargets targets) : t ∈ targets :=
  uniqueTargetsGo_mem targets [] t h

theorem mem_of_mem_mergeSort (le : RecommendationInput →
      RecommendationInput → Bool) (l : List RecommendationInput)
    (t : RecommendationInput) (h : t ∈ l.mergeSort le) : t ∈ l :=
  (List.mergeSort_perm l le).mem_iff.1 h

/-- Invariants of a single `applyAdjustments` iteration: the `channelId` and
`currentSpend` columns are unchanged, `applied` never decreases, in decrease
direction the proposed-spend sum drops by exactly the newly applied amount,
items whose id differs from the processed target are untouched, and
nonnegativity and the `delta = proposed - current` invariant are
preserved. -/
theorem adjBody_facts (d : Direction)
    (rb : RecommendationInput → ℚ → ℚ → String) (st : AdjState)
    (c : RecommendationInput) (n : ℕ) :
    (adjBody d rb st c n).items.map ActionPlanItem.channelId =
      st.items.map ActionPlanItem.channelId ∧
    (adjBody d rb st c n).items.map ActionPlanItem.currentSpend =
      st.items.map ActionPlanItem.currentSpend ∧
    st.applied ≤ (adjBody d rb st c n).applied ∧
    (d = .decrease →
      ((adjBody d rb st c n).items.map ActionPlanItem.proposedSpend).sum =
        (st.items.map ActionPlanItem.proposedSpend).sum -
          ((adjBody d rb st c n).applied - st.applied)) ∧
    (∀ (j : ℕ) (item0 : ActionPlanItem), st.items[j]? = some item0 →
      item0.channelId ≠ c.channelId →
      (adjBody d rb st c n).items[j]? = some item0) ∧
    ((∀ it ∈ st.items, 0 ≤ it.currentSpend ∧ 0 ≤ it.proposedSpend) →
      ∀ it ∈ (adjBody d rb st c n).items,
        0 ≤ it.currentSpend ∧ 0 ≤ it.proposedSpend) ∧
    ((∀ it ∈ st.items, it.delta = it.proposedSpend - it.currentSpend) →
      ∀ it ∈ (adjBody d rb st c n).items,
        it.delta = it.proposedSpend - it.currentSpend) := by
  obtain ⟨items, rem, app, touched⟩ := st
  by_cases h0 : rem ≤ 0
  · rw [adjBody_of_remaining_nonpos d rb ⟨items, rem, app, touched⟩ c n h0]
    exact ⟨rfl, rfl, le_refl _, fun _ => by ring, fun j i0 hj _ => hj,
      fun h => h, fun h => h⟩
  · cases hi : lastIdxOf items c.channelId with
    | none =>
        rw [adjBody_of_lastIdx_none d rb ⟨items, rem, app, touched⟩ c n h0 hi]
        exact ⟨rfl, rfl, le_refl _, fun _ => by ring, fun j i0 hj _ => hj,
          fun h => h, fun h => h⟩
    | some i =>
        cases hit : items[i]? with
        | none =>
            rw [adjBody_of_getElem_none d rb ⟨items, rem, app, touched⟩ c n i
              h0 hi hit]
            exact ⟨rfl, rfl, le_refl _, fun _ => by ring, fun j i0 hj _ => hj,
              fun h => h, fun h => h⟩
        | some item =>
            obtain ⟨cid, cur, prop, dlt, rat⟩ := item
            have hcid : cid = c.channelId := by
              obtain ⟨item', hit', hcid'⟩ := lastIdxOf_spec c.channelId items i hi
              rw [hit] at hit'
              injection hit' with h2
              rw [← h2] at hcid'
              exact hcid'
            have hmemi : (⟨cid, cur, prop, dlt, rat⟩ : ActionPlanItem) ∈ items :=
              mem_of_getElem_some hit
            have hrem : 0 < rem := not_le.1 h0
            have hshpos : 0 < rem / ((n + 1 : ℕ) : ℚ) :=
              div_pos hrem (by positivity)
            cases d with
            | increase =>
                rw [adjBody_increase_eq rb items rem app touched c n i cid cur
                  prop dlt rat h0 hi hit]
                refine ⟨map_set_eq items i _ _ _ hit rfl,
                  map_set_eq items i _ _ _ hit rfl, ?_,
                  fun hd => Direction.noConfusion hd, ?_, ?_, ?_⟩
                · show app ≤ app + rem / ((n + 1 : ℕ) : ℚ)
                  linarith
                · intro j item0 hj hne
                  have hij : i ≠ j := by
                    rintro rfl
                    rw [hj] at hit
                    injection hit with h2
                    exact hne (by rw [h2]; exact hcid)
                  rw [List.getElem?_set_ne hij]
                  exact hj
                · intro hP it hmem'
                  rcases List.mem_or_eq_of_mem_set hmem' with h' | rfl
                  · exact hP it h'
                  · have hc0 : (0 : ℚ) ≤ cur := (hP _ hmemi).1
                    refine ⟨hc0, ?_⟩
                    show (0 : ℚ) ≤ cur + rem / ((n + 1 : ℕ) : ℚ)
                    linarith
                · intro hP it hmem'
                  rcases List.mem_or_eq_of_mem_set hmem' with h' | rfl
                  · exact hP it h'
                  · rfl
            | decrease =>
                by_cases hred : min (rem / ((n + 1 : ℕ) : ℚ)) prop ≤ 0
                · rw [adjBody_decrease_skip rb items rem app touched c n i cid
                    cur prop dlt rat h0 hi hit hred]
                  exact ⟨rfl, rfl, le_refl _, fun _ => by ring,
                    fun j i0 hj _ => hj, fun h => h, fun h => h⟩
                · rw [adjBody_decrease_eq rb items rem app touched c n i cid
                    cur prop dlt rat h0 hi hit hred]
                  have hredpos : 0 < min (rem / ((n + 1 : ℕ) : ℚ)) prop :=
                    not_le.1 hred
                  have hredle : min (rem / ((n + 1 : ℕ) : ℚ)) prop ≤ prop :=
                    min_le_right _ _
                  have hmax : max 0 (prop - min (rem / ((n + 1 : ℕ) : ℚ)) prop)
                      = prop - min (rem / ((n + 1 : ℕ) : ℚ)) prop :=
                    max_eq_right (by linarith)
                  refine ⟨map_set_eq items i _ _ _ hit rfl,
                    map_set_eq items i _ _ _ hit rfl, ?_, ?_, ?_, ?_, ?_⟩
                  · show app ≤ app + min (rem / ((n + 1 : ℕ) : ℚ)) prop
                    linarith
                  · intro _
                    rw [sum_map_set items i _ _ ActionPlanItem.proposedSpend hit]
                    show (items.map ActionPlanItem.proposedSpend).sum - prop +
                        max 0 (prop - min (rem / ((n + 1 : ℕ) : ℚ)) prop) =
                      (items.map ActionPlanItem.proposedSpend).sum -
                        (app + min (rem / ((n + 1 : ℕ) : ℚ)) prop - app)
                    rw [hmax]
                    ring
                  · intro j item0 hj hne
                    have hij : i ≠ j := by
                      rintro rfl
                      rw [hj] at hit
                      injection hit with h2
                      exact hne (by rw [h2]; exact hcid)
                    rw [List.getElem?_set_ne hij]
                    exact hj
                  · intro hP it hmem'
                    rcases List.mem_or_eq_of_mem_set hmem' with h' | rfl
                    · exact hP it h'
                    · exact ⟨(hP _ hmemi).1, le_max_left _ _⟩
                  · intro hP it hmem'
                    rcases List.mem_or_eq_of_mem_set hmem' with h' | rfl
                    · exact hP it h'
                    · rfl

/-- The invariants of `adjBody_facts`, threaded through the whole
`targets.forEach` loop. -/
theorem adjLoop_facts (d : Direction)
    (rb : RecommendationInput → ℚ → ℚ → String) :
    ∀ (targets : List RecommendationInput) (st : AdjState),
      (adjLoop d rb st targets).items.map ActionPlanItem.channelId =
        st.items.map ActionPlanItem.channelId ∧
      (adjLoop d rb st targets).items.map ActionPlanItem.currentSpend =
        st.items.map ActionPlanItem.currentSpend ∧
      st.applied ≤ (adjLoop d rb st targets).applied ∧
      (d = .decrease →
        ((adjLoop d rb st targets).items.map ActionPlanItem.proposedSpend).sum =
          (st.items.map ActionPlanItem.proposedSpend).sum -
            ((adjLoop d rb st targets).applied - st.applied)) ∧
      (∀ (j : ℕ) (item0 : ActionPlanItem), st.items[j]? = some item0 →
        item0.channelId ∉ targets.map RecommendationInput.channelId →
        (adjLoop d rb st targets).items[j]? = some item0) ∧
      ((∀ it ∈ st.items, 0 ≤ it.currentSpend ∧ 0 ≤ it.proposedSpend) →
        ∀ it ∈ (adjLoop d rb st targets).items,
          0 ≤ it.currentSpend ∧ 0 ≤ it.proposedSpend) ∧
      ((∀ it ∈ st.items, it.delta = it.proposedSpend - it.currentSpend) →
        ∀ it ∈ (adjLoop d rb st targets).items,
          it.delta = it.proposedSpend - it.currentSpend) := by
  intro targets
  induction targets with
  | nil =>
      intro st
      rw [adjLoop_nil]
      exact ⟨rfl, rfl, le_refl _, fun _ => by ring, fun j i0 hj _ => hj,
        fun h => h, fun h => h⟩
  | cons c rest ih =>
      intro st
      rw [adjLoop_cons]
      obtain ⟨hids1, hcur1, happ1, hsum1, hun1, hnn1, hdl1⟩ :=
        adjBody_facts d rb st c rest.length
      obtain ⟨hids2, hcur2, happ2, hsum2, hun2, hnn2, hdl2⟩ :=
        ih (adjBody d rb st c rest.length)
      refine ⟨hids2.trans hids1, hcur2.trans hcur1, happ1.trans happ2, ?_, ?_,
        fun h => hnn2 (hnn1 h), fun h => hdl2 (hdl1 h)⟩
      · intro hd
        rw [hsum2 hd, hsum1 hd]
        ring
      · intro j item0 hj hnotin
        simp only [List.map_cons, List.mem_cons, not_or] at hnotin
        exact hun2 j item0 (hun1 j item0 hj hnotin.1) hnotin.2

/-- `applyAdjustments` either takes the trivial branch (returning the items
unchanged with `applied = 0`) or its guard condition fails. -/
theorem applyAdjustments_trivial_or (items : List ActionPlanItem)
    (targets : List RecommendationInput) (total : ℚ) (d : Direction)
    (rb : RecommendationInput → ℚ → ℚ → String) (touched : List String) :
    (targets = [] ∨ total ≤ 0) ∧
      applyAdjustments items targets total d rb touched =
        ⟨items, total, 0, touched⟩ ∨
    ¬(targets = [] ∨ total ≤ 0) := by
  by_cases h : targets = [] ∨ total ≤ 0
  · left
    exact ⟨h, by rw [applyAdjustments, if_pos h]⟩
  · right
    exact h

/-- The `adjLoop_facts` invariants, lifted through the `applyAdjustments`
wrapper (whose `applied` counter starts at `0`). -/
theorem applyAdjustments_facts (items : List ActionPlanItem)
    (targets : List RecommendationInput) (total : ℚ) (d : Direction)
    (rb : RecommendationInput → ℚ → ℚ → String) (touched : List String) :
    (applyAdjustments items targets total d rb touched).items.map
        ActionPlanItem.channelId = items.map ActionPlanItem.channelId ∧
    (applyAdjustments items targets total d rb touched).items.map
        ActionPlanItem.currentSpend = items.map ActionPlanItem.currentSpend ∧
    0 ≤ (applyAdjustments items targets total d rb touched).applied ∧
    (d = .decrease →
      ((applyAdjustments items targets total d rb touched).items.map
          ActionPlanItem.proposedSpend).sum =
        (items.map ActionPlanItem.proposedSpend).sum -
          (applyAdjustments items targets total d rb touched).applied) ∧
    (∀ (j : ℕ) (item0 : ActionPlanItem), items[j]? = some item0 →
      item0.channelId ∉ targets.map RecommendationInput.channelId →
      (applyAdjustments items targets total d rb touched).items[j]? =
        some item0) ∧
    ((∀ it ∈ items, 0 ≤ it.currentSpend ∧ 0 ≤ it.proposedSpend) →
      ∀ it ∈ (applyAdjustments items targets total d rb touched).items,
        0 ≤ it.currentSpend ∧ 0 ≤ it.proposedSpend) ∧
    ((∀ it ∈ items, it.delta = it.proposedSpend - it.currentSpend) →
      ∀ it ∈ (applyAdjustments items targets total d rb touched).items,
        it.delta = it.proposedSpend - it.currentSpend) := by
  rw [applyAdjustments]
  by_cases h : targets = [] ∨ total ≤ 0
  · rw [if_pos h]
    exact ⟨rfl, rfl, le_refl 0, fun _ => by ring, fun j i0 hj _ => hj,
      fun h => h, fun h => h⟩
  · rw [if_neg h]
    obtain ⟨hids, hcur, happ, hsum, hun, hnn, hdl⟩ :=
      adjLoop_facts d rb targets ⟨items, total, 0, touched⟩
    refine ⟨hids, hcur, happ, ?_, hun, hnn, hdl⟩
    intro hd
    rw [hsum hd]
    ring

/-- The increase pass distributes its entire pool: when the pool is positive,
the target ids are distinct, and every target's item is present with
`proposedSpend = currentSpend`, the loop applies exactly the pool and the
proposed-spend sum grows by exactly the pool. -/
theorem adjLoop_increase_total
    (rb : RecommendationInput → ℚ → ℚ → String)
    (targets : List RecommendationInput) :
    ∀ (st : AdjState), targets ≠ [] → 0 < st.remaining →
      (targets.map RecommendationInput.channelId).Nodup →
      (∀ tg ∈ targets, ∃ (i : ℕ) (item : ActionPlanItem),
        lastIdxOf st.items tg.channelId = some i ∧
        st.items[i]? = some item ∧
        item.proposedSpend = item.currentSpend) →
      (adjLoop .increase rb st targets).applied =
        st.applied + st.remaining ∧
      ((adjLoop .increase rb st targets).items.map
          ActionPlanItem.proposedSpend).sum =
        (st.items.map ActionPlanItem.proposedSpend).sum + st.remaining := by
  induction targets with
  | nil => intro st hne; exact absurd rfl hne
  | cons c rest ih =>
      intro st hne hrem hnd hfound
      obtain ⟨items, rem, app, touched⟩ := st
      obtain ⟨i, item, hi, hit, hpc⟩ := hfound c (List.mem_cons_self c rest)
      obtain ⟨cid, cur, prop, dlt, rat⟩ := item
      have hpc' : cur = prop := (hpc : prop = cur).symm
      subst hpc'
      have hrem' : 0 < rem := hrem
      have h0 : ¬ rem ≤ 0 := not_le.2 hrem'
      have hb := adjBody_increase_eq rb items rem app touched c rest.length i
        cid cur cur dlt rat h0 hi hit
      rw [adjLoop_cons, hb]
      simp only [List.map_cons, List.nodup_cons] at hnd
      cases rest with
      | nil =>
          rw [adjLoop_nil]
          have hc1 : ((List.length ([] : List RecommendationInput) + 1 : ℕ) : ℚ)
              = 1 := by norm_num
          constructor
          · show app + rem / ((List.length ([] : List RecommendationInput) + 1
                : ℕ) : ℚ) = app + rem
            rw [hc1, div_one]
          · show ((items.set i
                ⟨cid, cur,
                  cur + rem / ((List.length ([] : List RecommendationInput) + 1
                    : ℕ) : ℚ),
                  cur + rem / ((List.length ([] : List RecommendationInput) + 1
                    : ℕ) : ℚ) - cur,
                  rb c (rem / ((List.length ([] : List RecommendationInput) + 1
                    : ℕ) : ℚ)) (ratioOf c)⟩).map
              ActionPlanItem.proposedSpend).sum =
              (items.map ActionPlanItem.proposedSpend).sum + rem
            rw [sum_map_set items i _ _ ActionPlanItem.proposedSpend hit, hc1,
              div_one]
            show (items.map ActionPlanItem.proposedSpend).sum - cur +
                (cur + rem) = (items.map ActionPlanItem.proposedSpend).sum + rem
            ring
      | cons c2 rest2 =>
          have hlenpos : (0 : ℚ) <
              ((List.length (c2 :: rest2) + 1 : ℕ) : ℚ) := by positivity
          have hlen1 : (1 : ℚ) < ((List.length (c2 :: rest2) + 1 : ℕ) : ℚ) := by
            have h2 : 2 ≤ List.length (c2 :: rest2) + 1 := by
              simp [List.length_cons]
            calc (1 : ℚ) < 2 := one_lt_two
              _ ≤ ((List.length (c2 :: rest2) + 1 : ℕ) : ℚ) := by
                exact_mod_cast h2
          have hshpos : 0 < rem / ((List.length (c2 :: rest2) + 1 : ℕ) : ℚ) :=
            div_pos hrem' hlenpos
          have hshlt : rem / ((List.length (c2 :: rest2) + 1 : ℕ) : ℚ) < rem :=
            div_lt_self hrem' hlen1
          have hids : (items.set i
              ⟨cid, cur,
                cur + rem / ((List.length (c2 :: rest2) + 1 : ℕ) : ℚ),
                cur + rem / ((List.length (c2 :: rest2) + 1 : ℕ) : ℚ) - cur,
                rb c (rem / ((List.length (c2 :: rest2) + 1 : ℕ) : ℚ))
                  (ratioOf c)⟩).map ActionPlanItem.channelId =
              items.map ActionPlanItem.channelId :=
            map_set_eq items i _ _ _ hit rfl
          have hcidc : cid = c.channelId := by
            obtain ⟨item', hit', hcid'⟩ := lastIdxOf_spec c.channelId items i hi
            rw [hit] at hit'
            injection hit' with h2
            rw [← h2] at hcid'
            exact hcid'
          have hfound' : ∀ tg ∈ c2 :: rest2, ∃ (i' : ℕ) (item' : ActionPlanItem),
              lastIdxOf (items.set i
                ⟨cid, cur,
                  cur + rem / ((List.length (c2 :: rest2) + 1 : ℕ) : ℚ),
                  cur + rem / ((List.length (c2 :: rest2) + 1 : ℕ) : ℚ) - cur,
                  rb c (rem / ((List.length (c2 :: rest2) + 1 : ℕ) : ℚ))
                    (ratioOf c)⟩) tg.channelId = some i' ∧
              (items.set i
                ⟨cid, cur,
                  cur + rem / ((List.length (c2 :: rest2) + 1 : ℕ) : ℚ),
                  cur + rem / ((List.length (c2 :: rest2) + 1 : ℕ) : ℚ) - cur,
                  rb c (rem / ((List.length (c2 :: rest2) + 1 : ℕ) : ℚ))
                    (ratioOf c)⟩)[i']? = some item' ∧
              item'.proposedSpend = item'.currentSpend := by
            intro tg htg
            obtain ⟨i', item', hi', hit', hpc2⟩ :=
              hfound tg (List.mem_cons_of_mem c htg)
            have htgcid : tg.channelId ≠ c.channelId := by
              intro e
              exact hnd.1
                (e ▸ List.mem_map_of_mem RecommendationInput.channelId htg)
            have hne_idx : i ≠ i' := by
              rintro rfl
              obtain ⟨item2, hit2, hcid2⟩ :=
                lastIdxOf_spec tg.channelId items i hi'
              rw [hit] at hit2
              injection hit2 with h2
              rw [← h2] at hcid2
              exact htgcid (by rw [← hcid2, hcidc])
            refine ⟨i', item', ?_, ?_, hpc2⟩
            · rw [lastIdxOf_congr _ _ hids tg.channelId]
              exact hi'
            · rw [List.getElem?_set_ne hne_idx]
              exact hit'
          obtain ⟨hA, hS⟩ := ih
            ⟨items.set i
              ⟨cid, cur,
                cur + rem / ((List.length (c2 :: rest2) + 1 : ℕ) : ℚ),
                cur + rem / ((List.length (c2 :: rest2) + 1 : ℕ) : ℚ) - cur,
                rb c (rem / ((List.length (c2 :: rest2) + 1 : ℕ) : ℚ))
                  (ratioOf c)⟩,
              rem - rem / ((List.length (c2 :: rest2) + 1 : ℕ) : ℚ),
              app + rem / ((List.length (c2 :: rest2) + 1 : ℕ) : ℚ),
              touched ++ [c.channelId]⟩
            (by simp)
            (by
              show 0 < rem - rem / ((List.length (c2 :: rest2) + 1 : ℕ) : ℚ)
              linarith)
            hnd.2 hfound'
          constructor
          · rw [hA]
            show app + rem / ((List.length (c2 :: rest2) + 1 : ℕ) : ℚ) +
                (rem - rem / ((List.length (c2 :: rest2) + 1 : ℕ) : ℚ)) =
              app + rem
            ring
          · rw [hS, sum_map_set items i _ _ ActionPlanItem.proposedSpend hit]
            show (items.map ActionPlanItem.proposedSpend).sum - cur +
                (cur + rem / ((List.length (c2 :: rest2) + 1 : ℕ) : ℚ)) +
                (rem - rem / ((List.length (c2 :: rest2) + 1 : ℕ) : ℚ)) =
              (items.map ActionPlanItem.proposedSpend).sum + rem
            ring

/-- `adjLoop_increase_total`, lifted through the `applyAdjustments`
wrapper. -/
theorem applyAdjustments_increase_total (items : List ActionPlanItem)
    (targets : List RecommendationInput) (total : ℚ)
    (rb : RecommendationInput → ℚ → ℚ → String) (touched : List String)
    (hne : targets ≠ []) (hpos : 0 < total)
    (hnd : (targets.map RecommendationInput.channelId).Nodup)
    (hfound : ∀ tg ∈ targets, ∃ (i : ℕ) (item : ActionPlanItem),
      lastIdxOf items tg.channelId = some i ∧
      items[i]? = some item ∧ item.proposedSpend = item.currentSpend) :
    (applyAdjustments items targets total .increase rb touched).applied =
      total ∧
    ((applyAdjustments items targets total .increase rb touched).items.map
        ActionPlanItem.proposedSpend).sum =
      (items.map ActionPlanItem.proposedSpend).sum + total := by
  rw [applyAdjustments,
    if_neg (by push_neg; exact ⟨hne, hpos⟩)]
  obtain ⟨h1, h2⟩ := adjLoop_increase_total rb targets
    ⟨items, total, 0, touched⟩ hne hpos hnd hfound
  exact ⟨h1.trans (zero_add total), h2⟩

/-- Every strategy's increase-target list has pairwise distinct ids
(each is produced by `uniqueTargets`). -/
theorem pickTargets_increase_nodup (strategy : AllocationStrategy)
    (metrics : List RecommendationInput) :
    (((pickTargets strategy metrics).1).map
      RecommendationInput.channelId).Nodup := by
  cases strategy with
  | high_efficiency =>
      simp only [pickTargets]
      split
      · exact uniqueTargets_nodup _
      · exact uniqueTargets_nodup _
  | maximize_revenue =>
      simp only [pickTargets]
      exact uniqueTargets_nodup _
  | stability =>
      simp only [pickTargets]
      split
      · exact uniqueTargets_nodup _
      · exact uniqueTargets_nodup _

/-- Every increase target comes from the metrics list (sorts permute,
filters and takes select). -/
theorem pickTargets_increase_mem (strategy : AllocationStrategy)
    (metrics : List RecommendationInput) :
    ∀ t ∈ (pickTargets strategy metrics).1, t ∈ metrics := by
  cases strategy with
  | high_efficiency =>
      intro t ht
      simp only [pickTargets] at ht
      split at ht
      · have h1 := uniqueTargets_mem _ t ht
        exact mem_of_mem_mergeSort _ _ t (List.mem_of_mem_take h1)
      · have h1 := uniqueTargets_mem _ t ht
        have h2 := List.mem_of_mem_take h1
        exact mem_of_mem_mergeSort _ _ t (List.mem_filter.1 h2).1
  | maximize_revenue =>
      intro t ht
      simp only [pickTargets] at ht
      have h1 := uniqueTargets_mem _ t ht
      have h2 := List.mem_of_mem_take h1
      split at h2
      · exact mem_of_mem_mergeSort _ _ t (List.mem_filter.1 h2).1
      · exact mem_of_mem_mergeSort _ _ t h2
  | stability =>
      intro t ht
      simp only [pickTargets] at ht
      split at ht
      · have h1 := uniqueTargets_mem _ t ht
        exact mem_of_mem_mergeSort _ _ t (List.mem_of_mem_take h1)
      · have h1 := uniqueTargets_mem _ t ht
        have h2 := List.mem_of_mem_take h1
        exact (List.mem_filter.1 h2).1

theorem baseItemsOf_proposed (s : AllocationStrategy)
    (m : List RecommendationInput) :
    (baseItemsOf s m).map ActionPlanItem.proposedSpend =
      m.map RecommendationInput.spend := by
  rw [baseItemsOf, List.map_map]
  rfl

theorem baseItemsOf_current (s : AllocationStrategy)
    (m : List RecommendationInput) :
    (baseItemsOf s m).map ActionPlanItem.currentSpend =
      m.map RecommendationInput.spend := by
  rw [baseItemsOf, List.map_map]
  rfl

theorem baseItemsOf_ids (s : AllocationStrategy)
    (m : List RecommendationInput) :
    (baseItemsOf s m).map ActionPlanItem.channelId =
      m.map RecommendationInput.channelId := by
  rw [baseItemsOf, List.map_map]
  rfl

/-- Every base item starts with `proposed = current` and `delta = 0 =
proposed - current`. -/
theorem baseItemsOf_props (s : AllocationStrategy)
    (m : List RecommendationInput) :
    ∀ it ∈ baseItemsOf s m,
      it.proposedSpend = it.currentSpend ∧
      it.delta = it.proposedSpend - it.currentSpend := by
  intro it hmem
  rw [baseItemsOf] at hmem
  obtain ⟨c, hc, rfl⟩ := List.mem_map.1 hmem
  refine ⟨rfl, ?_⟩
  show (0 : ℚ) = c.spend - c.spend
  ring

theorem baseItemsOf_nonneg (s : AllocationStrategy)
    (m : List RecommendationInput) (h : ∀ c ∈ m, 0 ≤ c.spend) :
    ∀ it ∈ baseItemsOf s m,
      0 ≤ it.currentSpend ∧ 0 ≤ it.proposedSpend := by
  intro it hmem
  rw [baseItemsOf] at hmem
  obtain ⟨c, hc, rfl⟩ := List.mem_map.1 hmem
  exact ⟨h c hc, h c hc⟩

/-- The final rationale-fixup loop of `generateRecommendations` changes no
numeric column. -/
theorem holdFix_map_field (l : List ActionPlanItem) (touched : List String)
    (s : AllocationStrategy) (f : ActionPlanItem → ℚ)
    (hf : ∀ it : ActionPlanItem,
      f { it with rationale := holdRationale s } = f it) :
    (l.map (fun item =>
        if item.channelId ∈ touched then item
        else { item with rationale := holdRationale s })).map f = l.map f := by
  rw [List.map_map]
  refine List.map_congr_left ?_
  intro a _
  show f (if a.channelId ∈ touched then a
    else { a with rationale := holdRationale s }) = f a
  by_cases hc : a.channelId ∈ touched
  · rw [if_pos hc]
  · rw [if_neg hc, hf]

/-- Each item of the final plan shares its numeric columns with an item of
the post-increase state. -/
theorem holdFix_mem (l : List ActionPlanItem) (touched : List String)
    (s : AllocationStrategy) (item : ActionPlanItem)
    (h : item ∈ l.map (fun it =>
        if it.channelId ∈ touched then it
        else { it with rationale := holdRationale s })) :
    ∃ it ∈ l, item.proposedSpend = it.proposedSpend ∧
      item.currentSpend = it.currentSpend ∧ item.delta = it.delta := by
  obtain ⟨it, hmem, rfl⟩ := List.mem_map.1 h
  refine ⟨it, hmem, ?_⟩
  by_cases hc : it.channelId ∈ touched
  · rw [if_pos hc]
    exact ⟨rfl, rfl, rfl⟩
  · rw [if_neg hc]
    exact ⟨rfl, rfl, rfl⟩

/-- When every item satisfies `delta = proposed - current`, the delta column
sums to the difference of the other two columns' sums. -/
theorem sum_delta_eq (l : List ActionPlanItem)
    (h : ∀ it ∈ l, it.delta = it.proposedSpend - it.currentSpend) :
    (l.map ActionPlanItem.delta).sum =
      (l.map ActionPlanItem.proposedSpend).sum -
        (l.map ActionPlanItem.currentSpend).sum := by
  induction l with
  | nil => simp
  | cons a rest ih =>
      simp only [List.map_cons, List.sum_cons]
      rw [h a (List.mem_cons_self a rest),
        ih (fun it hit => h it (List.mem_cons_of_mem a hit))]
      ring

/-- Core conservation facts for `generateRecommendations`: the proposed and
current columns both sum to the metrics' total spend, deltas sum to zero,
and with nonnegative input spends every proposed spend is nonnegative. -/
theorem genRec_sums (metrics : List RecommendationInput)
    (strategy : AllocationStrategy) :
    ((generateRecommendations metrics strategy).map
        ActionPlanItem.proposedSpend).sum =
      (metrics.map RecommendationInput.spend).sum ∧
    ((generateRecommendations metrics strategy).map
        ActionPlanItem.currentSpend).sum =
      (metrics.map RecommendationInput.spend).sum ∧
    ((generateRecommendations metrics strategy).map ActionPlanItem.delta).sum
      = 0 ∧
    ((∀ c ∈ metrics, 0 ≤ c.spend) →
      ∀ item ∈ generateRecommendations metrics strategy,
        0 ≤ item.proposedSpend) := by
  by_cases hm : metrics = []
  · subst hm
    simp [generateRecommendations]
  · obtain ⟨hids_d, hcur_d, happ_d, hsum_d, hun_d, hnn_d, hdl_d⟩ :=
      applyAdjustments_facts (baseItemsOf strategy metrics)
        (decTargetsOf (pickTargets strategy metrics).1
          (pickTargets strategy metrics).2)
        (decreaseBudgetOf strategy metrics) .decrease decreaseRationale []
    have hids_d' : (decStateOf strategy metrics).items.map
        ActionPlanItem.channelId =
        (baseItemsOf strategy metrics).map ActionPlanItem.channelId := hids_d
    have hcur_d' : (decStateOf strategy metrics).items.map
        ActionPlanItem.currentSpend =
        (baseItemsOf strategy metrics).map ActionPlanItem.currentSpend := hcur_d
    have happ_d' : 0 ≤ (decStateOf strategy metrics).applied := happ_d
    have hsum_d' : ((decStateOf strategy metrics).items.map
        ActionPlanItem.proposedSpend).sum =
        ((baseItemsOf strategy metrics).map ActionPlanItem.proposedSpend).sum -
          (decStateOf strategy metrics).applied := hsum_d rfl
    have hun_d' : ∀ (j : ℕ) (item0 : ActionPlanItem),
        (baseItemsOf strategy metrics)[j]? = some item0 →
        item0.channelId ∉ (decTargetsOf (pickTargets strategy metrics).1
          (pickTargets strategy metrics).2).map
          RecommendationInput.channelId →
        (decStateOf strategy metrics).items[j]? = some item0 := hun_d
    have hnn_d' : (∀ it ∈ baseItemsOf strategy metrics,
          0 ≤ it.currentSpend ∧ 0 ≤ it.proposedSpend) →
        ∀ it ∈ (decStateOf strategy metrics).items,
          0 ≤ it.currentSpend ∧ 0 ≤ it.proposedSpend := hnn_d
    have hdl_d' : (∀ it ∈ baseItemsOf strategy metrics,
          it.delta = it.proposedSpend - it.currentSpend) →
        ∀ it ∈ (decStateOf strategy metrics).items,
          it.delta = it.proposedSpend - it.currentSpend := hdl_d
    obtain ⟨hids_i, hcur_i, happ_i, hsum_i, hun_i, hnn_i, hdl_i⟩ :=
      applyAdjustments_facts (decStateOf strategy metrics).items
        (pickTargets strategy metrics).1
        (decStateOf strategy metrics).applied .increase increaseRationale
        (decStateOf strategy metrics).touched
    have hcur_i' : (incStateOf strategy metrics).items.map
        ActionPlanItem.currentSpend =
        (decStateOf strategy metrics).items.map ActionPlanItem.currentSpend :=
      hcur_i
    have hnn_i' : (∀ it ∈ (decStateOf strategy metrics).items,
          0 ≤ it.currentSpend ∧ 0 ≤ it.proposedSpend) →
        ∀ it ∈ (incStateOf strategy metrics).items,
          0 ≤ it.currentSpend ∧ 0 ≤ it.proposedSpend := hnn_i
    have hdl_i' : (∀ it ∈ (decStateOf strategy metrics).items,
          it.delta = it.proposedSpend - it.currentSpend) →
        ∀ it ∈ (incStateOf strategy metrics).items,
          it.delta = it.proposedSpend - it.currentSpend := hdl_i
    have hsum_inc : ((incStateOf strategy metrics).items.map
        ActionPlanItem.proposedSpend).sum =
        ((decStateOf strategy metrics).items.map
          ActionPlanItem.proposedSpend).sum +
          (decStateOf strategy metrics).applied := by
      rcases lt_or_eq_of_le happ_d' with hA | hA
      · have hne_t : (pickTargets strategy metrics).1 ≠ [] := by
          rcases applyAdjustments_trivial_or (baseItemsOf strategy metrics)
            (decTargetsOf (pickTargets strategy metrics).1
              (pickTargets strategy metrics).2)
            (decreaseBudgetOf strategy metrics) .decrease decreaseRationale []
            with ⟨hcond, heq⟩ | hcond
          · exfalso
            have hz : (decStateOf strategy metrics).applied = 0 := by
              show (applyAdjustments (baseItemsOf strategy metrics)
                (decTargetsOf (pickTargets strategy metrics).1
                  (pickTargets strategy metrics).2)
                (decreaseBudgetOf strategy metrics) .decrease
                decreaseRationale []).applied = 0
              rw [heq]
            rw [hz] at hA
            exact absurd hA (by norm_num)
          · push_neg at hcond
            intro hempty
            have hb0 : decreaseBudgetOf strategy metrics = 0 := by
              rw [decreaseBudgetOf, if_neg (by simpa using hempty)]
            rw [hb0] at hcond
            exact absurd hcond.2 (by norm_num)
        have hfound : ∀ tg ∈ (pickTargets strategy metrics).1,
            ∃ (i : ℕ) (item : ActionPlanItem),
              lastIdxOf (decStateOf strategy metrics).items tg.channelId =
                some i ∧
              (decStateOf strategy metrics).items[i]? = some item ∧
              item.proposedSpend = item.currentSpend := by
          intro tg htg
          have htgm : tg ∈ metrics :=
            pickTargets_increase_mem strategy metrics tg htg
          have hidm : tg.channelId ∈ (decStateOf strategy metrics).items.map
              ActionPlanItem.channelId := by
            rw [hids_d', baseItemsOf_ids]
            exact List.mem_map_of_mem _ htgm
          obtain ⟨i, hi⟩ := lastIdxOf_isSome_of_mem _ _ hidm
          obtain ⟨item, hit, hitcid⟩ :=
            lastIdxOf_spec tg.channelId (decStateOf strategy metrics).items i hi
          have hleneq : (decStateOf strategy metrics).items.length =
              (baseItemsOf strategy metrics).length := by
            have hl := congrArg List.length hids_d'
            simpa using hl
          have hlt : i < (baseItemsOf strategy metrics).length := by
            have h1 := (List.getElem?_eq_some_iff.1 hit).1
            omega
          obtain ⟨item0, hb0⟩ : ∃ item0,
              (baseItemsOf strategy metrics)[i]? = some item0 := by
            cases hcase : (baseItemsOf strategy metrics)[i]? with
            | none =>
                rw [List.getElem?_eq_none_iff] at hcase
                omega
            | some x => exact ⟨x, rfl⟩
          have hcid0 : item0.channelId = tg.channelId := by
            have h1 : ((baseItemsOf strategy metrics).map
                ActionPlanItem.channelId)[i]? = some item0.channelId := by
              rw [List.getElem?_map, hb0]
              rfl
            have h2 : ((baseItemsOf strategy metrics).map
                ActionPlanItem.channelId)[i]? = some item.channelId := by
              rw [← hids_d', List.getElem?_map, hit]
              rfl
            rw [h1] at h2
            injection h2 with h3
            rw [h3]
            exact hitcid
          have hnotin : item0.channelId ∉
              (decTargetsOf (pickTargets strategy metrics).1
                (pickTargets strategy metrics).2).map
                RecommendationInput.channelId := by
            rw [hcid0]
            intro hmem2
            obtain ⟨dcand, hd1, hd2⟩ := List.mem_map.1 hmem2
            rw [decTargetsOf] at hd1
            have hd3 := (List.mem_filter.1 hd1).2
            rw [Bool.not_eq_true'] at hd3
            have hany : (pickTargets strategy metrics).1.any
                (fun i2 => i2.channelId = dcand.channelId) = true :=
              List.any_eq_true.2 ⟨tg, htg, by simp [hd2]⟩
            rw [hany] at hd3
            cases hd3
          have hkeep := hun_d' i item0 hb0 hnotin
          rw [hit] at hkeep
          injection hkeep with h4
          refine ⟨i, item, hi, hit, ?_⟩
          rw [h4]
          exact (baseItemsOf_props strategy metrics item0
            (mem_of_getElem_some hb0)).1
        obtain ⟨_, hS⟩ := applyAdjustments_increase_total
          (decStateOf strategy metrics).items (pickTargets strategy metrics).1
          (decStateOf strategy metrics).applied increaseRationale
          (decStateOf strategy metrics).touched hne_t hA
          (pickTargets_increase_nodup strategy metrics) hfound
        exact hS
      · have hiz : incStateOf strategy metrics =
            ⟨(decStateOf strategy metrics).items,
              (decStateOf strategy metrics).applied, 0,
              (decStateOf strategy metrics).touched⟩ := by
          rw [incStateOf, applyAdjustments,
            if_pos (Or.inr (le_of_eq hA.symm))]
        rw [hiz, ← hA]
        show ((decStateOf strategy metrics).items.map
            ActionPlanItem.proposedSpend).sum =
          ((decStateOf strategy metrics).items.map
            ActionPlanItem.proposedSpend).sum + 0
        ring
    have hdelta_inc : ∀ it ∈ (incStateOf strategy metrics).items,
        it.delta = it.proposedSpend - it.currentSpend :=
      hdl_i' (hdl_d' (fun it hmem =>
        (baseItemsOf_props strategy metrics it hmem).2))
    have hfinal_p : ((incStateOf strategy metrics).items.map
        ActionPlanItem.proposedSpend).sum =
        (metrics.map RecommendationInput.spend).sum := by
      rw [hsum_inc, hsum_d', baseItemsOf_proposed]
      ring
    have hfinal_c : (incStateOf strategy metrics).items.map
        ActionPlanItem.currentSpend = metrics.map RecommendationInput.spend := by
      rw [hcur_i', hcur_d', baseItemsOf_current]
    refine ⟨?_, ?_, ?_, ?_⟩
    · rw [generateRecommendations, if_neg hm,
        holdFix_map_field _ _ _ ActionPlanItem.proposedSpend (fun it => rfl)]
      exact hfinal_p
    · rw [generateRecommendations, if_neg hm,
        holdFix_map_field _ _ _ ActionPlanItem.currentSpend (fun it => rfl),
        hfinal_c]
    · rw [generateRecommendations, if_neg hm,
        holdFix_map_field _ _ _ ActionPlanItem.delta (fun it => rfl),
        sum_delta_eq _ hdelta_inc, hfinal_p, hfinal_c]
      ring
    · intro h item hmem
      rw [generateRecommendations, if_neg hm] at hmem
      obtain ⟨it, hitmem, hp, _, _⟩ := holdFix_mem _ _ _ item hmem
      rw [hp]
      exact (hnn_i' (hnn_d' (baseItemsOf_nonneg strategy metrics h)) it
        hitmem).2

/-- C7 (counterexample): nothing validates spend signs, so a single channel
with spend `-5` (whose decrease budget `0.12 * -5` is negative, making both
passes no-ops) yields a plan whose only item keeps `proposedSpend = -5 < 0`,
refuting the claim's unconditional per-channel floor of 0. -/
theorem C7_counterexample :
    (generateRecommendations [⟨"neg", 0, 0, -5, 0, 0, 1⟩]
        .high_efficiency).map ActionPlanItem.proposedSpend = [-5] ∧
    ¬ (0 : ℚ) ≤ -5 := by
  constructor
  · norm_num [generateRecommendations, incStateOf, decStateOf, decTargetsOf,
      decreaseBudgetOf, baseItemsOf, pickTargets, uniqueTargets,
      uniqueTargetsGo, ratioOf, applyAdjustments, adjLoop, adjBody, lastIdxOf,
      shiftByStrategy, lengthOr1, holdRationale, List.mergeSort_singleton,
      List.mergeSort_nil]
  · norm_num

/-- C7 (amended): for every metrics list and strategy
`generateRecommendations` conserves total spend — the proposed-spend sum
equals the input spend sum, which also equals the current-spend sum, so the
deltas sum to zero — and the per-channel floor of 0 on `proposedSpend` holds
provided every input spend is nonnegative (an untouched negative-spend
channel keeps its negative spend as `proposedSpend`); moreover the increase
pass of `applyAdjustments` adds exactly its pool (in
`generateRecommendations`, the `actualDecrease` removed by the decrease
pass) whenever the pool is positive, the targets are a nonempty list with
distinct ids, and each target's item is present with
`proposedSpend = currentSpend`. -/
theorem C7_spend_conservation (metrics : List RecommendationInput)
    (strategy : AllocationStrategy) :
    ((generateRecommendations metrics strategy).map
        ActionPlanItem.proposedSpend).sum =
      (metrics.map RecommendationInput.spend).sum ∧
    ((generateRecommendations metrics strategy).map
        ActionPlanItem.currentSpend).sum =
      (metrics.map RecommendationInput.spend).sum ∧
    ((generateRecommendations metrics strategy).map ActionPlanItem.delta).sum
      = 0 ∧
    ((∀ c ∈ metrics, 0 ≤ c.spend) →
      ∀ item ∈ generateRecommendations metrics strategy,
        0 ≤ item.proposedSpend) ∧
    (∀ (items : List ActionPlanItem) (targets : List RecommendationInput)
        (total : ℚ) (rb : RecommendationInput → ℚ → ℚ → String)
        (touched : List String),
      targets ≠ [] → 0 < total →
      (targets.map RecommendationInput.channelId).Nodup →
      (∀ tg ∈ targets, ∃ (i : ℕ) (item : ActionPlanItem),
        lastIdxOf items tg.channelId = some i ∧
        items[i]? = some item ∧ item.proposedSpend = item.currentSpend) →
      (applyAdjustments items targets total .increase rb touched).applied =
        total) := by
  obtain ⟨h1, h2, h3, h4⟩ := genRec_sums metrics strategy
  exact ⟨h1, h2, h3, h4,
    fun items targets total rb touched hne hpos hnd hfound =>
      (applyAdjustments_increase_total items targets total rb touched hne
        hpos hnd hfound).1⟩

/-- Witness for C7 at a concrete two-channel scenario (total spend 1000)
and a concrete increase-pass instance (pool 5, fully applied). -/
theorem C7_spend_conservation_witness :
    ((generateRecommendations [⟨"paid", 100, 1/2, 600, 300, 100, 6⟩,
        ⟨"brand", 400, 0, 400, 100, 0, 1⟩] .high_efficiency).map
      ActionPlanItem.proposedSpend).sum = 1000 ∧
    ((generateRecommendations [⟨"paid", 100, 1/2, 600, 300, 100, 6⟩,
        ⟨"brand", 400, 0, 400, 100, 0, 1⟩] .high_efficiency).map
      ActionPlanItem.currentSpend).sum = 1000 ∧
    ((generateRecommendations [⟨"paid", 100, 1/2, 600, 300, 100, 6⟩,
        ⟨"brand", 400, 0, 400, 100, 0, 1⟩] .high_efficiency).map
      ActionPlanItem.delta).sum = 0 ∧
    (∀ item ∈ generateRecommendations [⟨"paid", 100, 1/2, 600, 300, 100, 6⟩,
        ⟨"brand", 400, 0, 400, 100, 0, 1⟩] .high_efficiency,
      0 ≤ item.proposedSpend) ∧
    (applyAdjustments [⟨"A", 10, 10, 0, "h"⟩] [⟨"A", 1, 0, 10, 1, 0, 1⟩] 5
      .increase increaseRationale []).applied = 5 := by
  obtain ⟨h1, h2, h3, h4, h5⟩ := C7_spend_conservation
    [⟨"paid", 100, 1/2, 600, 300, 100, 6⟩, ⟨"brand", 400, 0, 400, 100, 0, 1⟩]
    .high_efficiency
  have hsum : (([⟨"paid", 100, 1/2, 600, 300, 100, 6⟩,
      ⟨"brand", 400, 0, 400, 100, 0, 1⟩] : List RecommendationInput).map
      RecommendationInput.spend).sum = 1000 := by norm_num
  refine ⟨h1.trans hsum, h2.trans hsum, h3, h4 ?_,
    h5 _ _ _ _ _ ?_ ?_ ?_ ?_⟩
  · intro c hc
    rcases List.mem_cons.1 hc with rfl | hc2
    · norm_num
    · simp at hc2
      subst hc2
      norm_num
  · simp
  · norm_num
  · simp
  · intro tg htg
    simp at htg
    subst htg
    exact ⟨0, ⟨"A", 10, 10, 0, "h"⟩, by decide, by simp, rfl⟩

end OLO
